/-
Verification development for the statuscollector repository.

This file shallowly embeds the dynamic metric synchronization engine of
`src/statuscollector/exporter.py` (class `ModelGauge`, its `update` /
`_update` methods, the `UispClientGauge._selector` wrapper and the
`PrometheusWrapper._maybe_refresh` scheduler) and proves properties of the
embedding.

Modelling conventions:
- Python heterogeneous attribute values become the inductive `Value`
  (None, bool, number, string); numbers are rationals.
- Python dicts become association lists; iteration follows list order
  (Python dicts iterate in insertion order).
- Exceptions become `Except` errors; an assertion failure or an uncaught
  KeyError is an `error` result.
- The prometheus gauge backend is an association list from label
  combination to the id value captured by the registered reading closure;
  `set_function` writes an entry and `remove` deletes one (raising
  KeyError when absent).
-/
import Mathlib

namespace StatusCollector

/-- A heterogeneous record attribute value as it appears in the model
dictionaries: Python's None, a boolean, a number, or a string. -/
inductive Value where
  | vnone : Value
  | vbool : Bool → Value
  | vnum : Rat → Value
  | vstr : String → Value
deriving DecidableEq, Repr

/-- A model record: the flat attribute map of one entity. -/
abbrev Record := List (String × Value)

/-- A model: mapping from primary key to record, in iteration order. -/
abbrev Model := List (Value × Record)

/-- `d.get(k)` / `d[k]` on an association list: first matching entry. -/
def alistGet {α β : Type} [DecidableEq α] : List (α × β) → α → Option β
  | [], _ => none
  | (a, b) :: rest, k => if a = k then some b else alistGet rest k

/-- `d[k] = v` on an association list: replace the first entry with key
`k`, or append a new entry. -/
def alistSet {α β : Type} [DecidableEq α] : List (α × β) → α → β → List (α × β)
  | [], k, v => [(k, v)]
  | (a, b) :: rest, k, v =>
    if a = k then (k, v) :: rest else (a, b) :: alistSet rest k v

/-- `del d[k]` on an association list: drop the first entry with key `k`. -/
def alistRemove {α β : Type} [DecidableEq α] : List (α × β) → α → List (α × β)
  | [], _ => []
  | (a, b) :: rest, k => if a = k then rest else (a, b) :: alistRemove rest k

/-- Construction-time configuration of a `ModelGauge`: the sorted list of
source attribute names (`self.labels = sorted(labelmap.keys())`) and the
designated id attribute (`self.idlabel`). -/
structure GaugeCfg where
  labels : List String
  idlabel : String
deriving DecidableEq, Repr

/-- The mutable state of a `ModelGauge`: `self.id2labelvalues_map`, the
prometheus gauge backend (label combination ↦ id value captured by the
registered reading closure), and `self.old_model_keys`. -/
structure GaugeState where
  id2labelvalues_map : List (Value × List Value)
  backend : List (List Value × Value)
  old_model_keys : List Value
deriving DecidableEq, Repr

/-- The state of a freshly constructed `ModelGauge` (before the `update()`
call made by `__init__`). -/
def initState : GaugeState := ⟨[], [], []⟩

/-- `[new_kv.get(s, '') for s in self.labels]`: the label combination of a
record; a missing attribute contributes the empty string. -/
def labelvalues (cfg : GaugeCfg) (kv : Record) : List Value :=
  cfg.labels.map (fun s => (alistGet kv s).getD (Value.vstr ""))

/-- Failure modes of the gauge code: the id assertion in `update` (which
also covers a KeyError on `new_kv[self.idlabel]`), the uncaught KeyError
of `self.gauge.remove` inside `_update`, the `assert old_labelvalues` in
the removal loop of `update`, and the assertion inside a reading closure
when the captured id is gone from the model. -/
inductive GErr where
  | idMismatch
  | removeKeyError
  | oldAssert
  | readAssert
deriving DecidableEq, Repr

/-- An observable write to the prometheus backend:
`self.gauge.labels(*c).set_function(..)` or `self.gauge.remove(*c)`. -/
inductive GEvent where
  | register : List Value → GEvent
  | remove : List Value → GEvent
deriving DecidableEq, Repr

instance exceptDecEq {ε α : Type} [DecidableEq ε] [DecidableEq α] :
    DecidableEq (Except ε α) := fun a b =>
  match a, b with
  | .error e, .error f =>
    if h : e = f then isTrue (congrArg Except.error h)
    else isFalse (fun hh => h (Except.error.inj hh))
  | .error _, .ok _ => isFalse (fun hh => Except.noConfusion hh)
  | .ok _, .error _ => isFalse (fun hh => Except.noConfusion hh)
  | .ok a, .ok b =>
    if h : a = b then isTrue (congrArg Except.ok h)
    else isFalse (fun hh => h (Except.ok.inj hh))

/-- `ModelGauge._update(self, new_kv)`, returning the new state and the
backend writes it performed.  `set_function` stores the id value captured
by the `_select` closure.  `if old_labelvalues:` is false for `None` and
for the empty list, and the `remove` there is not wrapped in try/except:
a KeyError propagates. -/
def updateOne (cfg : GaugeCfg) (s : GaugeState) (new_kv : Record) :
    Except GErr (GaugeState × List GEvent) :=
  match alistGet new_kv cfg.idlabel with
  | none => .error .idMismatch
  | some idvalue =>
    let nlv := labelvalues cfg new_kv
    match alistGet s.id2labelvalues_map idvalue with
    | none =>
      .ok ({ s with
               id2labelvalues_map := alistSet s.id2labelvalues_map idvalue nlv,
               backend := alistSet s.backend nlv idvalue },
           [GEvent.register nlv])
    | some old =>
      if old = nlv then
        .ok (s, [])
      else
        let b1 := alistSet s.backend nlv idvalue
        if old = [] then
          .ok ({ s with
                   id2labelvalues_map := alistSet s.id2labelvalues_map idvalue nlv,
                   backend := b1 },
               [GEvent.register nlv])
        else
          match alistGet b1 old with
          | none => .error .removeKeyError
          | some _ =>
            .ok ({ s with
                     id2labelvalues_map := alistSet s.id2labelvalues_map idvalue nlv,
                     backend := alistRemove b1 old },
                 [GEvent.register nlv, GEvent.remove old])

/-- The `for (k, new_model_dict) in model.items():` loop of
`ModelGauge.update`: assert `k == new_model_dict[self.idlabel]`, discard
`k` from `old_model_keys`, then `self._update(new_model_dict)`. -/
def updateItems (cfg : GaugeCfg) :
    GaugeState → List (Value × Record) → Except GErr (GaugeState × List GEvent)
  | s, [] => .ok (s, [])
  | s, (k, d) :: rest =>
    if alistGet d cfg.idlabel = some k then
      let s1 := { s with old_model_keys := s.old_model_keys.filter (fun x => x ≠ k) }
      match updateOne cfg s1 d with
      | .error e => .error e
      | .ok (s2, evs) =>
        match updateItems cfg s2 rest with
        | .error e => .error e
        | .ok (s3, evs2) => .ok (s3, evs ++ evs2)
    else .error .idMismatch

/-- The `for k in self.old_model_keys:` removal loop of
`ModelGauge.update`: `assert old_labelvalues` (false for `None` and for
the empty list), then `self.gauge.remove(*old_labelvalues)` with a
KeyError tolerated (logged).  The loop never deletes entries of
`id2labelvalues_map`. -/
def removeOld : GaugeState → List Value → Except GErr (GaugeState × List GEvent)
  | s, [] => .ok (s, [])
  | s, k :: rest =>
    match alistGet s.id2labelvalues_map k with
    | none => .error .oldAssert
    | some old =>
      if old = [] then .error .oldAssert
      else
        match alistGet s.backend old with
        | some _ =>
          match removeOld { s with backend := alistRemove s.backend old } rest with
          | .error e => .error e
          | .ok (s2, evs) => .ok (s2, GEvent.remove old :: evs)
        | none => removeOld s rest

/-- `ModelGauge.update(self)` for one value `model` of `self.model()`:
process every item, run the removal loop on the remaining
`old_model_keys`, then `self.old_model_keys = set(model.keys())`. -/
def update (cfg : GaugeCfg) (s : GaugeState) (model : Model) :
    Except GErr (GaugeState × List GEvent) :=
  match updateItems cfg s model with
  | .error e => .error e
  | .ok (s1, evs1) =>
    match removeOld s1 s1.old_model_keys with
    | .error e => .error e
    | .ok (s2, evs2) =>
      .ok ({ s2 with old_model_keys := model.map Prod.fst }, evs1 ++ evs2)

/-- Reading the gauge at label combination `c`: the registered `_select`
closure re-invokes the model accessor (here: is handed the model current
at read time), asserts that its captured id value is still a key, and
applies the selector to the record stored for that key now. -/
def readGauge {α : Type} (selector : Record → α) (s : GaugeState)
    (c : List Value) (current : Model) : Except GErr α :=
  match alistGet s.backend c with
  | none => .error .removeKeyError
  | some idvalue =>
    match alistGet current idvalue with
    | none => .error .readAssert
    | some r => .ok (selector r)

/-- Every record of the model maps the id attribute to its own key
(the assertion contract of `ModelGauge.update`). -/
def ValidModel (cfg : GaugeCfg) (m : Model) : Prop :=
  ∀ p ∈ m, alistGet p.2 cfg.idlabel = some p.1

instance (cfg : GaugeCfg) (m : Model) : Decidable (ValidModel cfg m) :=
  List.decidableBAll _ m

/-! ### The selector wrapper of `UispClientGauge.__init__` (`_selector`)

The wrapper dispatches on the raw selector output and turns an ISO-8601
timestamp string into Unix epoch seconds via
`datetime.fromisoformat(v).timestamp()`.  The library call is modelled
below for timezone-aware strings; a string without a UTC offset would be
interpreted in the host's local time zone, which is outside the model and
yields `none`, as does any unparsable string (where Python raises). -/

/-- Decimal value of a digit character, `none` otherwise. -/
def digitVal (c : Char) : Option Nat :=
  if c.isDigit then some (c.toNat - 48) else none

/-- Parse exactly two decimal digits. -/
def parseNat2 : List Char → Option (Nat × List Char)
  | a :: b :: rest => do
    let x ← digitVal a
    let y ← digitVal b
    pure (10 * x + y, rest)
  | _ => none

/-- Parse exactly four decimal digits. -/
def parseNat4 : List Char → Option (Nat × List Char)
  | a :: b :: c :: d :: rest => do
    let x ← digitVal a
    let y ← digitVal b
    let z ← digitVal c
    let w ← digitVal d
    pure (1000 * x + 100 * y + 10 * z + w, rest)
  | _ => none

/-- Consume one expected character. -/
def expectChar (c : Char) : List Char → Option (List Char)
  | a :: rest => if a = c then some rest else none
  | [] => none

/-- Read a run of digits as `numerator / denominator` (denominator a power
of ten), returning the rest. -/
def fracDigits : List Char → Nat → Nat → (Nat × Nat) × List Char
  | c :: cs, num, den =>
    match digitVal c with
    | some n => fracDigits cs (10 * num + n) (den * 10)
    | none => ((num, den), c :: cs)
  | [], num, den => ((num, den), [])

/-- Parse a fractional-seconds suffix `.d+` as numerator and power-of-ten
denominator; no suffix is `0 / 1`. -/
def parseFrac : List Char → (Nat × Nat) × List Char
  | '.' :: rest => fracDigits rest 0 1
  | cs => ((0, 1), cs)

/-- Is `y` a Gregorian leap year? -/
def isLeap (y : Nat) : Bool := (y % 4 = 0 && y % 100 != 0) || y % 400 = 0

/-- Number of days in month `m` of year `y`. -/
def daysInMonth (y m : Nat) : Nat :=
  if m = 2 then (if isLeap y then 29 else 28)
  else if m = 4 ∨ m = 6 ∨ m = 9 ∨ m = 11 then 30
  else 31

/-- Days from 1970-01-01 to the civil date `y-m-d` (valid for `y ≥ 1`),
by the standard days-from-civil computation. -/
def daysFromCivil (y m d : Nat) : Int :=
  let y1 := if m ≤ 2 then y - 1 else y
  let era := y1 / 400
  let yoe := y1 % 400
  let mp := (m + 9) % 12
  let doy := (153 * mp + 2) / 5 + (d - 1)
  let doe := yoe * 365 + yoe / 4 - yoe / 100 + doy
  (era * 146097 + doe : Int) - 719468

/-- Parse `YYYY-MM-DD` with range checks. -/
def parseDate (cs : List Char) : Option ((Nat × Nat × Nat) × List Char) :=
  match parseNat4 cs with
  | none => none
  | some (y, cs) =>
    match expectChar '-' cs with
    | none => none
    | some cs =>
      match parseNat2 cs with
      | none => none
      | some (mo, cs) =>
        match expectChar '-' cs with
        | none => none
        | some cs =>
          match parseNat2 cs with
          | none => none
          | some (da, cs) =>
            if 1 ≤ y ∧ 1 ≤ mo ∧ mo ≤ 12 ∧ 1 ≤ da ∧ da ≤ daysInMonth y mo
            then some ((y, mo, da), cs) else none

/-- Parse `HH:MM:SS` with range checks. -/
def parseTime (cs : List Char) : Option ((Nat × Nat × Nat) × List Char) :=
  match parseNat2 cs with
  | none => none
  | some (hh, cs) =>
    match expectChar ':' cs with
    | none => none
    | some cs =>
      match parseNat2 cs with
      | none => none
      | some (mi, cs) =>
        match expectChar ':' cs with
        | none => none
        | some cs =>
          match parseNat2 cs with
          | none => none
          | some (ss, cs) =>
            if hh ≤ 23 ∧ mi ≤ 59 ∧ ss ≤ 59 then some ((hh, mi, ss), cs) else none

/-- Parse a UTC offset `±HH[:]MM` (the whole rest of the string), in
seconds. -/
def parseOffset (cs : List Char) : Option Int :=
  match cs with
  | [] => none
  | sgn :: cs =>
    if sgn = '+' ∨ sgn = '-' then
      match parseNat2 cs with
      | none => none
      | some (oh, cs) =>
        let cs' := match cs with
          | ':' :: rest => rest
          | rest => rest
        match parseNat2 cs' with
        | none => none
        | some (om, cs) =>
          if cs = [] ∧ oh ≤ 23 ∧ om ≤ 59 then
            some ((if sgn = '-' then -1 else 1) * (oh * 3600 + om * 60))
          else none
    else none

/-- The integer data of `datetime.fromisoformat(v).timestamp()` for
strings of the shape `YYYY-MM-DD<sep>HH:MM:SS[.ffffff]±HH[:]MM` (the
shape the source documents: `2023-10-03T00:00:00-0700`): whole epoch
seconds plus the fractional part as numerator and denominator.  `none`
where Python would raise or would fall back to the host time zone (no
offset given). -/
def fromisoformatParts (v : String) : Option (Int × Nat × Nat) :=
  match parseDate v.toList with
  | none => none
  | some ((y, mo, da), cs) =>
    match cs with
    | [] => none
    | sep :: cs =>
      if sep = 'T' ∨ sep = ' ' then
        match parseTime cs with
        | none => none
        | some ((hh, mi, ss), cs) =>
          let fc := parseFrac cs
          match parseOffset fc.2 with
          | none => none
          | some offs =>
            let base : Int := daysFromCivil y mo da * 86400 + hh * 3600 + mi * 60 + ss
            some (base - offs, fc.1)
      else none

/-- Model of `datetime.fromisoformat(v).timestamp()`: the Unix epoch
seconds as a rational (possibly fractional). -/
def fromisoformatTimestamp (v : String) : Option Rat :=
  (fromisoformatParts v).map (fun p => (p.1 : Rat) + (p.2.1 : Rat) / (p.2.2 : Rat))

/-- The `_selector` closure built in `UispClientGauge.__init__` (the same
wrapper appears verbatim in `FrontlineGauge.__init__`):

    v = value_selector(model_dict)
    if v is None or v is False: return 0
    if v is True: return 1
    if isinstance(v, str): return datetime.fromisoformat(v).timestamp()
    return v

`none` models a raised exception (unparsable string). -/
def wrapSelector (value_selector : Record → Value) (model_dict : Record) : Option Rat :=
  match value_selector model_dict with
  | Value.vnone => some 0
  | Value.vbool false => some 0
  | Value.vbool true => some 1
  | Value.vstr s => fromisoformatTimestamp s
  | Value.vnum q => some q

/-! ### `PrometheusWrapper._maybe_refresh` of `exporter.py`

The method consists of three short critical sections under `self.lock`
around one long-running fetch performed outside the lock.  The embedding
runs the sections atomically in sequence; the environment supplies the
wall-clock readings, the fetch outcome, and an optional write to
`last_update` performed by another thread while the fetch runs outside
the lock (the only interference window the source's comments reason
about). -/

/-- `PrometheusWrapper.MIN_UPDATE_INTERVAL = 60 * 60` seconds. -/
def MIN_UPDATE_INTERVAL : Int := 60 * 60

/-- Constructor arguments `emailday` / `emailhour` of `PrometheusWrapper`
(`emailday` may be `-1`, meaning no weekday ever matches). -/
structure WrapCfg where
  emailday : Int
  emailhour : Int
deriving DecidableEq, Repr

/-- The shared mutable scheduler state: `self.last_update`,
`self.last_email`, `self.errors`. -/
structure WrapperState where
  last_update : Int
  last_email : Int
  errors : Nat
deriving DecidableEq, Repr

/-- Outcome of the `self._refresh(); for g in self.gauges: g.update()`
block: success, a raised `requests.exceptions.ReadTimeout`, or a raised
`requests.exceptions.ConnectionError` (which `exporter.py` does not
catch). -/
inductive FetchResult where
  | ok
  | readTimeout
  | connError
deriving DecidableEq, Repr

/-- One call's environment: the successive `time.time()` readings
(`newtime` at entry, `checktime` inside the first lock, `emailtime` in the
email section), the fetch outcome, an optional concurrent write to
`last_update` while the fetch runs outside the lock, the
`datetime.utcnow()` weekday and hour, and whether `self._send_email()`
succeeds (`false` models a raised `botocore.exceptions.ClientError`,
which is caught). -/
structure RefreshEnv where
  newtime : Int
  checktime : Int
  fetchResult : FetchResult
  midWrite : Option Int
  emailtime : Int
  weekday : Int
  hour : Int
  emailOk : Bool
deriving DecidableEq, Repr

/-- Result of a `_maybe_refresh` call: normal return or an escaped
exception, with the final shared state, whether `self._refresh()` was
invoked, and whether `self._send_email()` ran successfully. -/
inductive RefreshResult where
  | ok : WrapperState → Bool → Bool → RefreshResult
  | raised : WrapperState → Bool → RefreshResult
deriving DecidableEq, Repr

/-- Final shared state of a call. -/
def RefreshResult.state : RefreshResult → WrapperState
  | .ok s _ _ => s
  | .raised s _ => s

/-- Whether the call invoked the fetch collaborator `self._refresh()`. -/
def RefreshResult.fetched : RefreshResult → Bool
  | .ok _ f _ => f
  | .raised _ f => f

/-- Whether the call fired `self._send_email()` successfully. -/
def RefreshResult.emailed : RefreshResult → Bool
  | .ok _ _ e => e
  | .raised _ _ => false

/-- The third critical section of `_maybe_refresh`: fire the summary
email when the configured weekday matches, the hour threshold is reached
and more than 12 hours passed since `last_email`.  On success
`exporter.py` records `self.last_email = self.last_update` (not the
current time).  On a `botocore.exceptions.ClientError` from
`self._send_email()` the handler increments the external `EMAIL_ERRORS`
gauge (not part of the shared state) and then calls the zero-argument
`LOGGER.exception()`, which itself raises
`TypeError: Logger.exception() missing 1 required positional argument`,
so the method raises with `last_email` unchanged. -/
def emailStep (cfg : WrapCfg) (s : WrapperState) (env : RefreshEnv)
    (fetched : Bool) : RefreshResult :=
  if cfg.emailday = env.weekday ∧ cfg.emailhour ≤ env.hour
      ∧ env.emailtime - s.last_email > 3600 * 12 then
    if env.emailOk then
      .ok { s with last_email := s.last_update } fetched true
    else
      .raised s fetched
  else
    .ok s fetched false

/-- `PrometheusWrapper._maybe_refresh(self)` of `exporter.py`.  The
check-and-advance of `last_update` happens under the lock before the
fetch.  The `except requests.exceptions.ReadTimeout:` handler's first
statement is the zero-argument `LOGGER.exception()`, which raises
`TypeError` (the method requires a `msg` argument); hence the
`self.errors += 1` and the `last_update` rollback below it are dead code,
the email section is never reached on that path, and the exception
escapes with `last_update` left at the advanced value.  A
ConnectionError is not caught at all and escapes likewise. -/
def maybe_refresh (cfg : WrapCfg) (s : WrapperState) (env : RefreshEnv) :
    RefreshResult :=
  let p : Int × Int :=
    if env.checktime - s.last_update > MIN_UPDATE_INTERVAL
    then (s.last_update, env.newtime)
    else (-1, s.last_update)
  let oldtime := p.1
  let lu1 := p.2
  if oldtime ≠ -1 then
    let luMid := env.midWrite.getD lu1
    match env.fetchResult with
    | .ok =>
      emailStep cfg { s with last_update := luMid } env true
    | .readTimeout =>
      .raised { s with last_update := luMid } true
    | .connError =>
      .raised { s with last_update := luMid } true
  else
    emailStep cfg { s with last_update := lu1 } env false

/-! ### Association-list lemmas -/

section AlistLemmas

variable {α β : Type} [DecidableEq α]

theorem alistSet_cons_self (a : α) (b v : β) (rest : List (α × β)) :
    alistSet ((a, b) :: rest) a v = (a, v) :: rest := by
  simp [alistSet]

theorem alistRemove_cons_self (a : α) (b : β) (rest : List (α × β)) :
    alistRemove ((a, b) :: rest) a = rest := by
  simp [alistRemove]

theorem alistGet_set_self (m : List (α × β)) (k : α) (v : β) :
    alistGet (alistSet m k v) k = some v := by
  induction m with
  | nil => simp [alistGet, alistSet]
  | cons p rest ih =>
    obtain ⟨a, b⟩ := p
    by_cases h : a = k <;> simp [alistSet, alistGet, h, ih]

theorem alistGet_set_ne (m : List (α × β)) (k k' : α) (v : β) (h : k' ≠ k) :
    alistGet (alistSet m k v) k' = alistGet m k' := by
  induction m with
  | nil => simp [alistGet, alistSet, Ne.symm h]
  | cons p rest ih =>
    obtain ⟨a, b⟩ := p
    by_cases ha : a = k
    · subst ha
      simp [alistSet, alistGet, Ne.symm h]
    · simp only [alistSet, if_neg ha]
      by_cases ha' : a = k' <;> simp [alistGet, ha', ih]

theorem alistGet_remove_ne (m : List (α × β)) (k k' : α) (h : k' ≠ k) :
    alistGet (alistRemove m k) k' = alistGet m k' := by
  induction m with
  | nil => simp [alistRemove]
  | cons p rest ih =>
    obtain ⟨a, b⟩ := p
    by_cases ha : a = k
    · subst ha
      simp [alistRemove, alistGet, Ne.symm h]
    · simp only [alistRemove, if_neg ha]
      by_cases ha' : a = k' <;> simp [alistGet, ha', ih]

theorem alistGet_eq_none (m : List (α × β)) (k : α) :
    alistGet m k = none ↔ k ∉ m.map Prod.fst := by
  induction m with
  | nil => simp [alistGet]
  | cons p rest ih =>
    obtain ⟨a, b⟩ := p
    by_cases ha : a = k
    · subst ha
      simp [alistGet]
    · simp only [alistGet, if_neg ha, List.map_cons, List.mem_cons, ih]
      have hka : ¬ k = a := fun hh => ha hh.symm
      tauto

theorem alistGet_mem (m : List (α × β)) (k : α) (b : β)
    (h : alistGet m k = some b) : (k, b) ∈ m := by
  induction m with
  | nil => simp [alistGet] at h
  | cons p rest ih =>
    obtain ⟨a, c⟩ := p
    by_cases ha : a = k
    · subst ha
      simp [alistGet] at h
      simp [h]
    · simp [alistGet, ha] at h
      exact List.mem_cons_of_mem _ (ih h)

theorem mem_keys_of_alistGet (m : List (α × β)) (k : α) (b : β)
    (h : alistGet m k = some b) : k ∈ m.map Prod.fst := by
  exact List.mem_map.2 ⟨(k, b), alistGet_mem m k b h, rfl⟩

theorem alistGet_of_mem_keys (m : List (α × β)) (k : α)
    (h : k ∈ m.map Prod.fst) : ∃ b, alistGet m k = some b := by
  rcases ho : alistGet m k with _ | b
  · exact absurd ((alistGet_eq_none m k).1 ho) (by simpa using h)
  · exact ⟨b, rfl⟩

theorem mem_keys_alistSet (m : List (α × β)) (k : α) (v : β) (x : α) :
    x ∈ (alistSet m k v).map Prod.fst ↔ x = k ∨ x ∈ m.map Prod.fst := by
  induction m with
  | nil => simp [alistSet]
  | cons p rest ih =>
    obtain ⟨a, b⟩ := p
    by_cases ha : a = k
    · subst ha
      rw [alistSet_cons_self]
      simp only [List.map_cons, List.mem_cons]
      tauto
    · simp only [alistSet, if_neg ha, List.map_cons, List.mem_cons, ih]
      tauto

theorem nodupKeys_alistSet (m : List (α × β)) (k : α) (v : β)
    (h : (m.map Prod.fst).Nodup) : ((alistSet m k v).map Prod.fst).Nodup := by
  induction m with
  | nil => simp [alistSet]
  | cons p rest ih =>
    obtain ⟨a, b⟩ := p
    simp only [List.map_cons, List.nodup_cons] at h
    by_cases ha : a = k
    · subst ha
      rw [alistSet_cons_self]
      simp only [List.map_cons, List.nodup_cons]
      exact h
    · simp only [alistSet, if_neg ha, List.map_cons, List.nodup_cons]
      refine ⟨fun hx => h.1 ?_, ih h.2⟩
      rcases (mem_keys_alistSet rest k v a).1 hx with h' | h'
      · exact absurd h' ha
      · exact h'

theorem keys_alistRemove_sublist (m : List (α × β)) (k : α) :
    ((alistRemove m k).map Prod.fst).Sublist (m.map Prod.fst) := by
  induction m with
  | nil => simp [alistRemove]
  | cons p rest ih =>
    obtain ⟨a, b⟩ := p
    by_cases ha : a = k
    · subst ha
      rw [alistRemove_cons_self]
      exact List.Sublist.cons _ (List.Sublist.refl _)
    · simp only [alistRemove, if_neg ha, List.map_cons]
      exact List.Sublist.cons₂ _ ih

theorem nodupKeys_alistRemove (m : List (α × β)) (k : α)
    (h : (m.map Prod.fst).Nodup) : ((alistRemove m k).map Prod.fst).Nodup :=
  (keys_alistRemove_sublist m k).nodup h

theorem alistGet_remove_self (m : List (α × β)) (k : α)
    (h : (m.map Prod.fst).Nodup) : alistGet (alistRemove m k) k = none := by
  induction m with
  | nil => simp [alistRemove, alistGet]
  | cons p rest ih =>
    obtain ⟨a, b⟩ := p
    simp only [List.map_cons, List.nodup_cons] at h
    by_cases ha : a = k
    · subst ha
      rw [alistRemove_cons_self]
      exact (alistGet_eq_none rest a).2 h.1
    · simp only [alistRemove, if_neg ha, alistGet, if_neg ha]
      exact ih h.2

theorem alistGet_append (l1 l2 : List (α × β)) (k : α) :
    alistGet (l1 ++ l2) k = (alistGet l1 k).or (alistGet l2 k) := by
  induction l1 with
  | nil => simp [alistGet]
  | cons p rest ih =>
    obtain ⟨a, b⟩ := p
    by_cases ha : a = k <;> simp [alistGet, ha, ih]

end AlistLemmas

/-! ### Label-combination lemmas -/

theorem labelvalues_ne_nil (cfg : GaugeCfg) (d : Record)
    (h : cfg.idlabel ∈ cfg.labels) : labelvalues cfg d ≠ [] := by
  cases hl : cfg.labels with
  | nil => rw [hl] at h; cases h
  | cons a t => simp [labelvalues, hl]

theorem map_eq_of_mem_of_map_eq {γ : Type} (f g : String → γ) (l : List String)
    (x : String) (hx : x ∈ l) (h : l.map f = l.map g) : f x = g x := by
  induction l with
  | nil => cases hx
  | cons a t ih =>
    simp only [List.map_cons, List.cons.injEq] at h
    rcases List.mem_cons.1 hx with rfl | hx'
    · exact h.1
    · exact ih hx' h.2

/-- Two records that agree on their label combination carry the same id
value: the id attribute is one of the exported labels. -/
theorem labelvalues_id_eq (cfg : GaugeCfg) (hmem : cfg.idlabel ∈ cfg.labels)
    (d d' : Record) (k k' : Value)
    (hd : alistGet d cfg.idlabel = some k) (hd' : alistGet d' cfg.idlabel = some k')
    (he : labelvalues cfg d = labelvalues cfg d') : k = k' := by
  have h := map_eq_of_mem_of_map_eq
    (fun s => (alistGet d s).getD (Value.vstr ""))
    (fun s => (alistGet d' s).getD (Value.vstr "")) cfg.labels cfg.idlabel hmem he
  simpa [hd, hd'] using h


/-! ### Unfolding lemmas for the gauge operations -/

theorem updateOne_skip (cfg : GaugeCfg) (s : GaugeState) (d : Record) (k : Value)
    (hv : alistGet d cfg.idlabel = some k)
    (hold : alistGet s.id2labelvalues_map k = some (labelvalues cfg d)) :
    updateOne cfg s d = .ok (s, []) := by
  simp [updateOne, hv, hold]

theorem updateOne_fresh (cfg : GaugeCfg) (s : GaugeState) (d : Record) (k : Value)
    (hv : alistGet d cfg.idlabel = some k)
    (hold : alistGet s.id2labelvalues_map k = none) :
    updateOne cfg s d = .ok
      ({ s with
           id2labelvalues_map := alistSet s.id2labelvalues_map k (labelvalues cfg d),
           backend := alistSet s.backend (labelvalues cfg d) k },
       [GEvent.register (labelvalues cfg d)]) := by
  simp [updateOne, hv, hold]

theorem updateOne_replace (cfg : GaugeCfg) (s : GaugeState) (d : Record)
    (k i0 : Value) (old : List Value)
    (hv : alistGet d cfg.idlabel = some k)
    (hold : alistGet s.id2labelvalues_map k = some old)
    (hne : old ≠ labelvalues cfg d)
    (hnil : old ≠ [])
    (hb : alistGet (alistSet s.backend (labelvalues cfg d) k) old = some i0) :
    updateOne cfg s d = .ok
      ({ s with
           id2labelvalues_map := alistSet s.id2labelvalues_map k (labelvalues cfg d),
           backend := alistRemove (alistSet s.backend (labelvalues cfg d) k) old },
       [GEvent.register (labelvalues cfg d), GEvent.remove old]) := by
  simp [updateOne, hv, hold, hne, hnil, hb]

theorem updateOne_map_self (cfg : GaugeCfg) (s : GaugeState) (d : Record)
    (k : Value) (s' : GaugeState) (evs : List GEvent)
    (hv : alistGet d cfg.idlabel = some k)
    (h : updateOne cfg s d = .ok (s', evs)) :
    alistGet s'.id2labelvalues_map k = some (labelvalues cfg d) := by
  simp only [updateOne, hv] at h
  rcases ho : alistGet s.id2labelvalues_map k with _ | old
  · simp only [ho, Except.ok.injEq, Prod.mk.injEq] at h
    rw [← h.1]
    exact alistGet_set_self _ _ _
  · simp only [ho] at h
    by_cases he : old = labelvalues cfg d
    · rw [if_pos he] at h
      simp only [Except.ok.injEq, Prod.mk.injEq] at h
      rw [← h.1, ho, he]
    · rw [if_neg he] at h
      by_cases hnil : old = []
      · rw [if_pos hnil] at h
        simp only [Except.ok.injEq, Prod.mk.injEq] at h
        rw [← h.1]
        exact alistGet_set_self _ _ _
      · rw [if_neg hnil] at h
        rcases hb : alistGet (alistSet s.backend (labelvalues cfg d) k) old
          with _ | i0
        · simp only [hb] at h
          exact Except.noConfusion h
        · simp only [hb, Except.ok.injEq, Prod.mk.injEq] at h
          rw [← h.1]
          exact alistGet_set_self _ _ _

theorem updateOne_map_other (cfg : GaugeCfg) (s : GaugeState) (d : Record)
    (k : Value) (s' : GaugeState) (evs : List GEvent)
    (hv : alistGet d cfg.idlabel = some k)
    (h : updateOne cfg s d = .ok (s', evs)) :
    ∀ x, x ≠ k → alistGet s'.id2labelvalues_map x = alistGet s.id2labelvalues_map x := by
  intro x hx
  simp only [updateOne, hv] at h
  rcases ho : alistGet s.id2labelvalues_map k with _ | old
  · simp only [ho, Except.ok.injEq, Prod.mk.injEq] at h
    rw [← h.1]
    exact alistGet_set_ne _ _ _ _ hx
  · simp only [ho] at h
    by_cases he : old = labelvalues cfg d
    · rw [if_pos he] at h
      simp only [Except.ok.injEq, Prod.mk.injEq] at h
      rw [← h.1]
    · rw [if_neg he] at h
      by_cases hnil : old = []
      · rw [if_pos hnil] at h
        simp only [Except.ok.injEq, Prod.mk.injEq] at h
        rw [← h.1]
        exact alistGet_set_ne _ _ _ _ hx
      · rw [if_neg hnil] at h
        rcases hb : alistGet (alistSet s.backend (labelvalues cfg d) k) old
          with _ | i0
        · simp only [hb] at h
          exact Except.noConfusion h
        · simp only [hb, Except.ok.injEq, Prod.mk.injEq] at h
          rw [← h.1]
          exact alistGet_set_ne _ _ _ _ hx

theorem updateOne_old_const (cfg : GaugeCfg) (s : GaugeState) (d : Record)
    (s' : GaugeState) (evs : List GEvent)
    (h : updateOne cfg s d = .ok (s', evs)) :
    s'.old_model_keys = s.old_model_keys := by
  rcases hv : alistGet d cfg.idlabel with _ | k
  · simp only [updateOne, hv] at h
    exact Except.noConfusion h
  · simp only [updateOne, hv] at h
    rcases ho : alistGet s.id2labelvalues_map k with _ | old
    · simp only [ho, Except.ok.injEq, Prod.mk.injEq] at h
      rw [← h.1]
    · simp only [ho] at h
      by_cases he : old = labelvalues cfg d
      · rw [if_pos he] at h
        simp only [Except.ok.injEq, Prod.mk.injEq] at h
        rw [← h.1]
      · rw [if_neg he] at h
        by_cases hnil : old = []
        · rw [if_pos hnil] at h
          simp only [Except.ok.injEq, Prod.mk.injEq] at h
          rw [← h.1]
        · rw [if_neg hnil] at h
          rcases hb : alistGet (alistSet s.backend (labelvalues cfg d) k) old
            with _ | i0
          · simp only [hb] at h
            exact Except.noConfusion h
          · simp only [hb, Except.ok.injEq, Prod.mk.injEq] at h
            rw [← h.1]

theorem updateItems_valid (cfg : GaugeCfg) :
    ∀ (l : List (Value × Record)) (s s' : GaugeState) (evs : List GEvent),
    updateItems cfg s l = .ok (s', evs) →
    ∀ p ∈ l, alistGet p.2 cfg.idlabel = some p.1 := by
  intro l
  induction l with
  | nil => intro s s' evs _ p hp; cases hp
  | cons q rest ih =>
    obtain ⟨k, d⟩ := q
    intro s s' evs h p hp
    simp only [updateItems] at h
    by_cases hc : alistGet d cfg.idlabel = some k
    · rcases List.mem_cons.1 hp with rfl | hp'
      · exact hc
      · rw [if_pos hc] at h
        rcases h1 : updateOne cfg
            { s with old_model_keys := s.old_model_keys.filter (fun x => x ≠ k) } d
          with e | ⟨s2, evs1⟩
        · simp only [h1] at h
          exact Except.noConfusion h
        · simp only [h1] at h
          rcases h2 : updateItems cfg s2 rest with e | ⟨s3, evs2⟩
          · simp only [h2] at h
            exact Except.noConfusion h
          · exact ih s2 s3 evs2 h2 p hp'
    · rw [if_neg hc] at h
      cases h

theorem updateItems_map_other (cfg : GaugeCfg) :
    ∀ (l : List (Value × Record)) (s s' : GaugeState) (evs : List GEvent),
    updateItems cfg s l = .ok (s', evs) →
    ∀ x, x ∉ l.map Prod.fst →
      alistGet s'.id2labelvalues_map x = alistGet s.id2labelvalues_map x := by
  intro l
  induction l with
  | nil =>
    intro s s' evs h x _
    simp only [updateItems, Except.ok.injEq, Prod.mk.injEq] at h
    rw [← h.1]
  | cons q rest ih =>
    obtain ⟨k, d⟩ := q
    intro s s' evs h x hx
    simp only [List.map_cons, List.mem_cons, not_or] at hx
    simp only [updateItems] at h
    by_cases hc : alistGet d cfg.idlabel = some k
    · rw [if_pos hc] at h
      rcases h1 : updateOne cfg
          { s with old_model_keys := s.old_model_keys.filter (fun x => x ≠ k) } d
        with e | ⟨s2, evs1⟩
      · simp only [h1] at h
        exact Except.noConfusion h
      · simp only [h1] at h
        rcases h2 : updateItems cfg s2 rest with e | ⟨s3, evs2⟩
        · simp only [h2] at h
          exact Except.noConfusion h
        · simp only [h2, Except.ok.injEq, Prod.mk.injEq] at h
          rw [← h.1]
          rw [ih s2 s3 evs2 h2 x hx.2]
          exact updateOne_map_other cfg _ d k s2 evs1 hc h1 x hx.1
    · rw [if_neg hc] at h
      cases h

theorem updateItems_map (cfg : GaugeCfg) :
    ∀ (l : List (Value × Record)) (s s' : GaugeState) (evs : List GEvent),
    (l.map Prod.fst).Nodup →
    updateItems cfg s l = .ok (s', evs) →
    ∀ p ∈ l, alistGet s'.id2labelvalues_map p.1 = some (labelvalues cfg p.2) := by
  intro l
  induction l with
  | nil => intro s s' evs _ _ p hp; cases hp
  | cons q rest ih =>
    obtain ⟨k, d⟩ := q
    intro s s' evs hnd h p hp
    simp only [List.map_cons, List.nodup_cons] at hnd
    simp only [updateItems] at h
    by_cases hc : alistGet d cfg.idlabel = some k
    · rw [if_pos hc] at h
      rcases h1 : updateOne cfg
          { s with old_model_keys := s.old_model_keys.filter (fun x => x ≠ k) } d
        with e | ⟨s2, evs1⟩
      · simp only [h1] at h
        exact Except.noConfusion h
      · simp only [h1] at h
        rcases h2 : updateItems cfg s2 rest with e | ⟨s3, evs2⟩
        · simp only [h2] at h
          exact Except.noConfusion h
        · simp only [h2, Except.ok.injEq, Prod.mk.injEq] at h
          rcases List.mem_cons.1 hp with rfl | hp'
          · rw [← h.1]
            show alistGet s3.id2labelvalues_map k = some (labelvalues cfg d)
            rw [updateItems_map_other cfg rest s2 s3 evs2 h2 k hnd.1]
            exact updateOne_map_self cfg _ d k s2 evs1 hc h1
          · rw [← h.1]
            exact ih s2 s3 evs2 hnd.2 h2 p hp'
    · rw [if_neg hc] at h
      cases h

theorem removeOld_map_const :
    ∀ (ks : List Value) (s s' : GaugeState) (evs : List GEvent),
    removeOld s ks = .ok (s', evs) →
    s'.id2labelvalues_map = s.id2labelvalues_map
      ∧ s'.old_model_keys = s.old_model_keys := by
  intro ks
  induction ks with
  | nil =>
    intro s s' evs h
    simp only [removeOld, Except.ok.injEq, Prod.mk.injEq] at h
    rw [← h.1]
    exact ⟨rfl, rfl⟩
  | cons k rest ih =>
    intro s s' evs h
    simp only [removeOld] at h
    rcases ho : alistGet s.id2labelvalues_map k with _ | old
    · simp only [ho] at h
      exact Except.noConfusion h
    · simp only [ho] at h
      by_cases hnil : old = []
      · rw [if_pos hnil] at h
        cases h
      · rw [if_neg hnil] at h
        rcases hb : alistGet s.backend old with _ | i0
        · simp only [hb] at h
          exact ih s s' evs h
        · simp only [hb] at h
          rcases h2 : removeOld { s with backend := alistRemove s.backend old } rest
            with e | ⟨s2, evs2⟩
          · simp only [h2] at h
            exact Except.noConfusion h
          · simp only [h2, Except.ok.injEq, Prod.mk.injEq] at h
            have hih := ih { s with backend := alistRemove s.backend old } s2 evs2 h2
            rw [← h.1]
            exact hih

theorem update_parts (cfg : GaugeCfg) (s : GaugeState) (model : Model)
    (s1 : GaugeState) (evs : List GEvent)
    (h : update cfg s model = .ok (s1, evs)) :
    ∃ sA eA sB eB, updateItems cfg s model = .ok (sA, eA)
      ∧ removeOld sA sA.old_model_keys = .ok (sB, eB)
      ∧ s1 = { sB with old_model_keys := model.map Prod.fst }
      ∧ evs = eA ++ eB := by
  unfold update at h
  rcases hA : updateItems cfg s model with e | ⟨sA, eA⟩
  · simp only [hA] at h
    exact Except.noConfusion h
  · simp only [hA] at h
    rcases hB : removeOld sA sA.old_model_keys with e | ⟨sB, eB⟩
    · simp only [hB] at h
      exact Except.noConfusion h
    · simp only [hB, Except.ok.injEq, Prod.mk.injEq] at h
      exact ⟨sA, eA, sB, eB, rfl, hB, h.1.symm, h.2.symm⟩

/-! ### The reconciliation invariant

`BInv cfg mOld mProc b` describes the backend in the middle of the item
loop of `update`: a label combination is registered for id `i` exactly
when `i` is an already-processed key with that combination, or an
untouched key of the previous model with that combination. -/

def BInv (cfg : GaugeCfg) (mOld mProc : Model)
    (b : List (List Value × Value)) : Prop :=
  ∀ c i, alistGet b c = some i ↔
    ((∃ d, alistGet mProc i = some d ∧ c = labelvalues cfg d)
     ∨ (alistGet mProc i = none
        ∧ ∃ d, alistGet mOld i = some d ∧ c = labelvalues cfg d))

/-- Every lookup result of a valid model is an id-consistent record. -/
def ValidGets (cfg : GaugeCfg) (m : Model) : Prop :=
  ∀ k dx, alistGet m k = some dx → alistGet dx cfg.idlabel = some k

theorem validGets_of_validModel (cfg : GaugeCfg) (m : Model)
    (h : ValidModel cfg m) : ValidGets cfg m :=
  fun k dx hk => h (k, dx) (alistGet_mem m k dx hk)

theorem alistGet_extend_ne (mProc : Model) (k : Value) (d : Record)
    (x : Value) (hx : x ≠ k) :
    alistGet (mProc ++ [(k, d)]) x = alistGet mProc x := by
  rw [alistGet_append]
  have hkx : ¬ k = x := fun hh => hx hh.symm
  have : alistGet [(k, d)] x = none := by
    simp [alistGet, hkx]
  rw [this, Option.or_none]

theorem alistGet_extend_self (mProc : Model) (k : Value) (d : Record)
    (hkp : alistGet mProc k = none) :
    alistGet (mProc ++ [(k, d)]) k = some d := by
  rw [alistGet_append, hkp, Option.none_or]
  simp [alistGet]

theorem validGets_extend (cfg : GaugeCfg) (mProc : Model) (k : Value) (d : Record)
    (hv : ValidGets cfg mProc) (hkd : alistGet d cfg.idlabel = some k) :
    ValidGets cfg (mProc ++ [(k, d)]) := by
  intro x dx hx
  by_cases hxk : x = k
  · subst hxk
    rw [alistGet_append] at hx
    rcases ho : alistGet mProc x with _ | d0
    · rw [ho, Option.none_or] at hx
      simp [alistGet] at hx
      rw [← hx]
      exact hkd
    · rw [ho] at hx
      simp [Option.or] at hx
      rw [← hx]
      exact hv x d0 ho
  · rw [alistGet_extend_ne mProc k d x hxk] at hx
    exact hv x dx hx

/-- Item processed with an unchanged combination: the backend invariant
extends without any backend write. -/
theorem bInv_extend_keep (cfg : GaugeCfg) (mOld mProc : Model)
    (b : List (List Value × Value)) (k : Value) (d dOld : Record)
    (hkp : alistGet mProc k = none)
    (hOld : alistGet mOld k = some dOld)
    (heq : labelvalues cfg dOld = labelvalues cfg d)
    (hB : BInv cfg mOld mProc b) :
    BInv cfg mOld (mProc ++ [(k, d)]) b := by
  intro c i
  rw [hB c i]
  by_cases hik : i = k
  · subst hik
    constructor
    · rintro (⟨d', hd', hc⟩ | ⟨hnone, d'', hd'', hc⟩)
      · rw [hkp] at hd'
        cases hd'
      · left
        refine ⟨d, alistGet_extend_self mProc i d hkp, ?_⟩
        rw [hOld] at hd''
        injection hd'' with hdd
        rw [hc, ← hdd]
        exact heq
    · rintro (⟨d', hd', hc⟩ | ⟨hnone, d'', hd'', hc⟩)
      · rw [alistGet_extend_self mProc i d hkp] at hd'
        injection hd' with hdd
        right
        refine ⟨hkp, dOld, hOld, ?_⟩
        rw [hc, ← hdd, ← heq]
      · rw [alistGet_extend_self mProc i d hkp] at hnone
        cases hnone
  · rw [alistGet_extend_ne mProc k d i hik]

/-- Item processed with a fresh key (no stored combination): the backend
invariant extends across the `set_function` registration. -/
theorem bInv_extend_fresh (cfg : GaugeCfg) (mOld mProc : Model)
    (b : List (List Value × Value)) (k : Value) (d : Record)
    (Hid : cfg.idlabel ∈ cfg.labels)
    (hgO : ValidGets cfg mOld) (hgP : ValidGets cfg mProc)
    (hkd : alistGet d cfg.idlabel = some k)
    (hkp : alistGet mProc k = none)
    (hOld : alistGet mOld k = none)
    (hB : BInv cfg mOld mProc b) :
    BInv cfg mOld (mProc ++ [(k, d)]) (alistSet b (labelvalues cfg d) k) := by
  intro c i
  by_cases hc : c = labelvalues cfg d
  · subst hc
    rw [alistGet_set_self]
    constructor
    · intro h
      injection h with h
      left
      exact ⟨d, by rw [h] at hkp ⊢; exact alistGet_extend_self mProc i d hkp, rfl⟩
    · rintro (⟨d', hd', hc'⟩ | ⟨hnone, d'', hd'', hc''⟩)
      · by_cases hik : i = k
        · rw [hik]
        · rw [alistGet_extend_ne mProc k d i hik] at hd'
          have hvi := hgP i d' hd'
          have hki := labelvalues_id_eq cfg Hid d d' k i hkd hvi hc'
          exact absurd hki.symm hik
      · by_cases hik : i = k
        · subst hik
          rw [hOld] at hd''
        · have hvi := hgO i d'' hd''
          have hki := labelvalues_id_eq cfg Hid d d'' k i hkd hvi hc''
          exact absurd hki.symm hik
  · rw [alistGet_set_ne b (labelvalues cfg d) c k hc]
    rw [hB c i]
    by_cases hik : i = k
    · subst hik
      constructor
      · rintro (⟨d', hd', hc'⟩ | ⟨hnone, d'', hd'', hc''⟩)
        · rw [hkp] at hd'
          cases hd'
        · rw [hOld] at hd''
          cases hd''
      · rintro (⟨d', hd', hc'⟩ | ⟨hnone, d'', hd'', hc''⟩)
        · rw [alistGet_extend_self mProc i d hkp] at hd'
          injection hd' with hdd
          subst hdd
          exact absurd hc' hc
        · rw [alistGet_extend_self mProc i d hkp] at hnone
          cases hnone
    · rw [alistGet_extend_ne mProc k d i hik]

/-- Item processed with a changed combination: the backend invariant
extends across the registration of the new combination and the removal of
the old one. -/
theorem bInv_extend_replace (cfg : GaugeCfg) (mOld mProc : Model)
    (b : List (List Value × Value)) (k : Value) (d dOld : Record)
    (Hid : cfg.idlabel ∈ cfg.labels)
    (hgO : ValidGets cfg mOld) (hgP : ValidGets cfg mProc)
    (hkd : alistGet d cfg.idlabel = some k)
    (hkp : alistGet mProc k = none)
    (hOld : alistGet mOld k = some dOld)
    (hne : labelvalues cfg dOld ≠ labelvalues cfg d)
    (hnd : (b.map Prod.fst).Nodup)
    (hB : BInv cfg mOld mProc b) :
    BInv cfg mOld (mProc ++ [(k, d)])
      (alistRemove (alistSet b (labelvalues cfg d) k) (labelvalues cfg dOld)) := by
  intro c i
  by_cases hco : c = labelvalues cfg dOld
  · subst hco
    rw [alistGet_remove_self _ _ (nodupKeys_alistSet b _ k hnd)]
    constructor
    · intro h
      cases h
    · rintro (⟨d', hd', hc'⟩ | ⟨hnone, d'', hd'', hc''⟩)
      · by_cases hik : i = k
        · subst hik
          rw [alistGet_extend_self mProc i d hkp] at hd'
          injection hd' with hdd
          subst hdd
          exact absurd hc' hne
        · rw [alistGet_extend_ne mProc k d i hik] at hd'
          have hvi := hgP i d' hd'
          have hki := labelvalues_id_eq cfg Hid dOld d' k i (hgO k dOld hOld) hvi hc'
          exact absurd hki.symm hik
      · by_cases hik : i = k
        · subst hik
          rw [alistGet_extend_self mProc i d hkp] at hnone
          cases hnone
        · have hvi := hgO i d'' hd''
          have hki := labelvalues_id_eq cfg Hid dOld d'' k i (hgO k dOld hOld) hvi hc''
          exact absurd hki.symm hik
  · rw [alistGet_remove_ne (alistSet b (labelvalues cfg d) k) (labelvalues cfg dOld) c hco]
    by_cases hcd : c = labelvalues cfg d
    · subst hcd
      rw [alistGet_set_self]
      constructor
      · intro h
        injection h with h
        left
        exact ⟨d, by rw [h] at hkp ⊢; exact alistGet_extend_self mProc i d hkp, rfl⟩
      · rintro (⟨d', hd', hc'⟩ | ⟨hnone, d'', hd'', hc''⟩)
        · by_cases hik : i = k
          · rw [hik]
          · rw [alistGet_extend_ne mProc k d i hik] at hd'
            have hvi := hgP i d' hd'
            have hki := labelvalues_id_eq cfg Hid d d' k i hkd hvi hc'
            exact absurd hki.symm hik
        · by_cases hik : i = k
          · subst hik
            rw [alistGet_extend_self mProc i d hkp] at hnone
          · have hvi := hgO i d'' hd''
            have hki := labelvalues_id_eq cfg Hid d d'' k i hkd hvi hc''
            exact absurd hki.symm hik
    · rw [alistGet_set_ne b (labelvalues cfg d) c k hcd]
      rw [hB c i]
      by_cases hik : i = k
      · subst hik
        constructor
        · rintro (⟨d', hd', hc'⟩ | ⟨hnone, d'', hd'', hc''⟩)
          · rw [hkp] at hd'
            cases hd'
          · rw [hOld] at hd''
            injection hd'' with hdd
            subst hdd
            exact absurd hc'' hco
        · rintro (⟨d', hd', hc'⟩ | ⟨hnone, d'', hd'', hc''⟩)
          · rw [alistGet_extend_self mProc i d hkp] at hd'
            injection hd' with hdd
            subst hdd
            exact absurd hc' hcd
          · rw [alistGet_extend_self mProc i d hkp] at hnone
            cases hnone
      · rw [alistGet_extend_ne mProc k d i hik]

/-- The loop invariant of the item phase of `update`: `mProc` is the list
of already-processed items of the new model. -/
def ItemsInv (cfg : GaugeCfg) (mOld mProc : Model) (s : GaugeState) : Prop :=
  (∀ x, alistGet s.id2labelvalues_map x
      = ((alistGet mProc x).map (labelvalues cfg)).or
        ((alistGet mOld x).map (labelvalues cfg)))
  ∧ BInv cfg mOld mProc s.backend
  ∧ s.old_model_keys
      = (mOld.map Prod.fst).filter (fun x => (alistGet mProc x).isNone)
  ∧ (s.backend.map Prod.fst).Nodup

theorem mapInv_extend (cfg : GaugeCfg) (mOld mProc : Model)
    (mp : List (Value × List Value)) (k : Value) (d : Record)
    (hkp : alistGet mProc k = none)
    (hmap : ∀ x, alistGet mp x
      = ((alistGet mProc x).map (labelvalues cfg)).or
        ((alistGet mOld x).map (labelvalues cfg)))
    (mp' : List (Value × List Value))
    (hself : alistGet mp' k = some (labelvalues cfg d))
    (hother : ∀ x, x ≠ k → alistGet mp' x = alistGet mp x) :
    ∀ x, alistGet mp' x
      = ((alistGet (mProc ++ [(k, d)]) x).map (labelvalues cfg)).or
        ((alistGet mOld x).map (labelvalues cfg)) := by
  intro x
  by_cases hx : x = k
  · subst hx
    rw [hself, alistGet_extend_self mProc x d hkp]
    rfl
  · rw [hother x hx, hmap x, alistGet_extend_ne mProc k d x hx]

theorem listFilterFilter {γ : Type} (l : List γ) (p q : γ → Bool) :
    (l.filter p).filter q = l.filter (fun a => p a && q a) := by
  induction l with
  | nil => rfl
  | cons a t ih =>
    by_cases hp : p a
    · by_cases hq : q a <;> simp [List.filter_cons, hp, hq, ih]
    · simp [List.filter_cons, hp, ih]

theorem oldKeys_extend (mOld mProc : Model) (k : Value) (d : Record) :
    ((mOld.map Prod.fst).filter (fun x => (alistGet mProc x).isNone)).filter
        (fun x => x ≠ k)
      = (mOld.map Prod.fst).filter
          (fun x => (alistGet (mProc ++ [(k, d)]) x).isNone) := by
  rw [listFilterFilter]
  apply List.filter_congr
  intro x _
  by_cases hx : x = k
  · subst hx
    rw [alistGet_append]
    have h1 : alistGet [(x, d)] x = some d := by simp [alistGet]
    rw [h1]
    rcases ho : alistGet mProc x with _ | d0 <;> simp [Option.or, ho]
  · rw [alistGet_extend_ne mProc k d x hx]
    simp [hx]

/-- The item phase of `update` preserves the reconciliation invariant and
never fails on a valid, duplicate-free model. -/
theorem updateItems_inv (cfg : GaugeCfg) (mOld : Model)
    (Hid : cfg.idlabel ∈ cfg.labels)
    (hgO : ValidGets cfg mOld) :
    ∀ (rest mProc : Model) (s : GaugeState),
    ValidModel cfg (mProc ++ rest) →
    ((mProc ++ rest).map Prod.fst).Nodup →
    ItemsInv cfg mOld mProc s →
    ∃ s' evs, updateItems cfg s rest = .ok (s', evs)
      ∧ ItemsInv cfg mOld (mProc ++ rest) s' := by
  intro rest
  induction rest with
  | nil =>
    intro mProc s _ _ inv
    exact ⟨s, [], by simp [updateItems], by simpa using inv⟩
  | cons q rest' ih =>
    obtain ⟨k, d⟩ := q
    intro mProc s hval hnd inv
    obtain ⟨hmap, hbk, hold, hnb⟩ := inv
    have hkd : alistGet d cfg.idlabel = some k := hval (k, d) (by simp)
    have hgP : ValidGets cfg mProc := by
      intro x dx hx
      exact hval (x, dx) (List.mem_append.2 (Or.inl (alistGet_mem mProc x dx hx)))
    have hndx := hnd
    rw [List.map_append] at hndx
    obtain ⟨hndP, hndR, hdisj⟩ := List.nodup_append.1 hndx
    have hkmP : k ∉ mProc.map Prod.fst := by
      intro hmem
      exact hdisj hmem (by simp)
    have hkp : alistGet mProc k = none := (alistGet_eq_none mProc k).2 hkmP
    have happ : (mProc ++ [(k, d)]) ++ rest' = mProc ++ (k, d) :: rest' := by
      simp
    have hval' : ValidModel cfg ((mProc ++ [(k, d)]) ++ rest') := by
      rw [happ]
      exact hval
    have hnd' : (((mProc ++ [(k, d)]) ++ rest').map Prod.fst).Nodup := by
      rw [happ]
      exact hnd
    have hgP' : ValidGets cfg (mProc ++ [(k, d)]) :=
      validGets_extend cfg mProc k d hgP hkd
    -- the state after `old_model_keys.discard(k)`
    have holdkeys :
        (s.old_model_keys.filter (fun x => x ≠ k))
          = (mOld.map Prod.fst).filter
              (fun x => (alistGet (mProc ++ [(k, d)]) x).isNone) := by
      rw [hold]
      exact oldKeys_extend mOld mProc k d
    rcases ho : alistGet mOld k with _ | dOld
    · -- fresh key: register only
      have hsk : alistGet s.id2labelvalues_map k = none := by
        rw [hmap k, hkp, ho]
        rfl
      have hone := updateOne_fresh cfg
        { s with old_model_keys := s.old_model_keys.filter (fun x => x ≠ k) }
        d k hkd hsk
      have inv2 : ItemsInv cfg mOld (mProc ++ [(k, d)])
          { s with
              id2labelvalues_map := alistSet s.id2labelvalues_map k (labelvalues cfg d),
              backend := alistSet s.backend (labelvalues cfg d) k,
              old_model_keys := s.old_model_keys.filter (fun x => x ≠ k) } := by
        refine ⟨?_, ?_, ?_, ?_⟩
        · exact mapInv_extend cfg mOld mProc s.id2labelvalues_map k d hkp hmap _
            (alistGet_set_self _ _ _) (fun x hx => alistGet_set_ne _ _ _ _ hx)
        · exact bInv_extend_fresh cfg mOld mProc s.backend k d Hid hgO hgP hkd hkp ho hbk
        · exact holdkeys
        · exact nodupKeys_alistSet s.backend _ k hnb
      obtain ⟨s', evs, hrun, inv'⟩ := ih (mProc ++ [(k, d)]) _ hval' hnd' inv2
      refine ⟨s', GEvent.register (labelvalues cfg d) :: evs, ?_, by rwa [happ] at inv'⟩
      simp only [updateItems]
      rw [if_pos hkd]
      simp only [hone, hrun]
      rfl
    · by_cases hcomb : labelvalues cfg dOld = labelvalues cfg d
      · -- unchanged combination: no backend write
        have hsk : alistGet s.id2labelvalues_map k = some (labelvalues cfg d) := by
          rw [hmap k, hkp, ho]
          simp [Option.or, hcomb]
        have hone := updateOne_skip cfg
          { s with old_model_keys := s.old_model_keys.filter (fun x => x ≠ k) }
          d k hkd hsk
        have inv2 : ItemsInv cfg mOld (mProc ++ [(k, d)])
            { s with old_model_keys := s.old_model_keys.filter (fun x => x ≠ k) } := by
          refine ⟨?_, ?_, ?_, ?_⟩
          · exact mapInv_extend cfg mOld mProc s.id2labelvalues_map k d hkp hmap _
              hsk (fun x hx => rfl)
          · exact bInv_extend_keep cfg mOld mProc s.backend k d dOld hkp ho hcomb hbk
          · exact holdkeys
          · exact hnb
        obtain ⟨s', evs, hrun, inv'⟩ := ih (mProc ++ [(k, d)]) _ hval' hnd' inv2
        refine ⟨s', evs, ?_, by rwa [happ] at inv'⟩
        simp only [updateItems]
        rw [if_pos hkd]
        simp only [hone, hrun]
        rfl
      · -- changed combination: register the new one, remove the old one
        have hsk : alistGet s.id2labelvalues_map k = some (labelvalues cfg dOld) := by
          rw [hmap k, hkp, ho]
          rfl
        have hnnil : labelvalues cfg dOld ≠ [] := labelvalues_ne_nil cfg dOld Hid
        have hbold : alistGet (alistSet s.backend (labelvalues cfg d) k)
            (labelvalues cfg dOld) = some k := by
          rw [alistGet_set_ne s.backend (labelvalues cfg d) (labelvalues cfg dOld) k hcomb]
          exact (hbk (labelvalues cfg dOld) k).2 (Or.inr ⟨hkp, dOld, ho, rfl⟩)
        have hone := updateOne_replace cfg
          { s with old_model_keys := s.old_model_keys.filter (fun x => x ≠ k) }
          d k k (labelvalues cfg dOld) hkd hsk hcomb hnnil hbold
        have inv2 : ItemsInv cfg mOld (mProc ++ [(k, d)])
            { s with
                id2labelvalues_map := alistSet s.id2labelvalues_map k (labelvalues cfg d),
                backend := alistRemove (alistSet s.backend (labelvalues cfg d) k)
                  (labelvalues cfg dOld),
                old_model_keys := s.old_model_keys.filter (fun x => x ≠ k) } := by
          refine ⟨?_, ?_, ?_, ?_⟩
          · exact mapInv_extend cfg mOld mProc s.id2labelvalues_map k d hkp hmap _
              (alistGet_set_self _ _ _) (fun x hx => alistGet_set_ne _ _ _ _ hx)
          · exact bInv_extend_replace cfg mOld mProc s.backend k d dOld Hid hgO hgP
              hkd hkp ho hcomb hnb hbk
          · exact holdkeys
          · exact nodupKeys_alistRemove _ _ (nodupKeys_alistSet s.backend _ k hnb)
        obtain ⟨s', evs, hrun, inv'⟩ := ih (mProc ++ [(k, d)]) _ hval' hnd' inv2
        refine ⟨s', GEvent.register (labelvalues cfg d) :: GEvent.remove (labelvalues cfg dOld) :: evs,
          ?_, by rwa [happ] at inv'⟩
        simp only [updateItems]
        rw [if_pos hkd]
        simp only [hone, hrun]
        rfl

/-- The removal loop of `update` deletes exactly the combinations of
vanished keys and never fails when every pending key has a stored
combination. -/
theorem removeOld_inv (cfg : GaugeCfg) (mOld mNew : Model)
    (Hid : cfg.idlabel ∈ cfg.labels)
    (hgO : ValidGets cfg mOld) (hgN : ValidGets cfg mNew) :
    ∀ (rem : List Value) (s : GaugeState),
    rem.Nodup →
    (∀ x ∈ rem, alistGet mNew x = none ∧ ∃ dx, alistGet mOld x = some dx
        ∧ alistGet s.id2labelvalues_map x = some (labelvalues cfg dx)) →
    (∀ c i, alistGet s.backend c = some i ↔
        ((∃ d, alistGet mNew i = some d ∧ c = labelvalues cfg d)
         ∨ (alistGet mNew i = none ∧ i ∈ rem
            ∧ ∃ d, alistGet mOld i = some d ∧ c = labelvalues cfg d))) →
    (s.backend.map Prod.fst).Nodup →
    ∃ s' evs, removeOld s rem = .ok (s', evs)
      ∧ s'.id2labelvalues_map = s.id2labelvalues_map
      ∧ s'.old_model_keys = s.old_model_keys
      ∧ (∀ c i, alistGet s'.backend c = some i ↔
          (∃ d, alistGet mNew i = some d ∧ c = labelvalues cfg d))
      ∧ (s'.backend.map Prod.fst).Nodup := by
  intro rem
  induction rem with
  | nil =>
    intro s _ _ hbk hnb
    refine ⟨s, [], by simp [removeOld], rfl, rfl, ?_, hnb⟩
    intro c i
    rw [hbk c i]
    simp
  | cons k0 rest ih =>
    intro s hndrem hmem hbk hnb
    obtain ⟨hnew0, d0, hold0, hmap0⟩ := hmem k0 (by simp)
    simp only [List.nodup_cons] at hndrem
    have hnnil : labelvalues cfg d0 ≠ [] := labelvalues_ne_nil cfg d0 Hid
    have hb0 : alistGet s.backend (labelvalues cfg d0) = some k0 :=
      (hbk (labelvalues cfg d0) k0).2 (Or.inr ⟨hnew0, by simp, d0, hold0, rfl⟩)
    -- invariant for the shrunk backend
    have hbk2 : ∀ c i,
        alistGet (alistRemove s.backend (labelvalues cfg d0)) c = some i ↔
        ((∃ d, alistGet mNew i = some d ∧ c = labelvalues cfg d)
         ∨ (alistGet mNew i = none ∧ i ∈ rest
            ∧ ∃ d, alistGet mOld i = some d ∧ c = labelvalues cfg d)) := by
      intro c i
      by_cases hc : c = labelvalues cfg d0
      · subst hc
        rw [alistGet_remove_self s.backend _ hnb]
        constructor
        · intro h
          cases h
        · rintro (⟨d, hd, hc'⟩ | ⟨hn, hr, d, hd, hc'⟩)
          · have hki := labelvalues_id_eq cfg Hid d0 d k0 i
              (hgO k0 d0 hold0) (hgN i d hd) hc'
            rw [← hki] at hd
            rw [hnew0] at hd
            cases hd
          · have hki := labelvalues_id_eq cfg Hid d0 d k0 i
              (hgO k0 d0 hold0) (hgO i d hd) hc'
            rw [← hki] at hr
            exact absurd hr hndrem.1
      · rw [alistGet_remove_ne s.backend (labelvalues cfg d0) c hc]
        rw [hbk c i]
        constructor
        · rintro (h1 | ⟨hn, hr, d, hd, hc'⟩)
          · exact Or.inl h1
          · rcases List.mem_cons.1 hr with rfl | hr'
            · rw [hold0] at hd
              injection hd with hdd
              subst hdd
              exact absurd hc' hc
            · exact Or.inr ⟨hn, hr', d, hd, hc'⟩
        · rintro (h1 | ⟨hn, hr, d, hd, hc'⟩)
          · exact Or.inl h1
          · exact Or.inr ⟨hn, List.mem_cons_of_mem _ hr, d, hd, hc'⟩
    have hmem2 : ∀ x ∈ rest, alistGet mNew x = none ∧ ∃ dx, alistGet mOld x = some dx
        ∧ alistGet ({ s with backend := alistRemove s.backend (labelvalues cfg d0) } :
            GaugeState).id2labelvalues_map x = some (labelvalues cfg dx) := by
      intro x hx
      exact hmem x (List.mem_cons_of_mem _ hx)
    obtain ⟨s', evs, hrun, hm', ho', hb', hn'⟩ :=
      ih { s with backend := alistRemove s.backend (labelvalues cfg d0) }
        hndrem.2 hmem2 hbk2 (nodupKeys_alistRemove _ _ hnb)
    refine ⟨s', GEvent.remove (labelvalues cfg d0) :: evs, ?_, hm', ho', hb', hn'⟩
    simp only [removeOld, hmap0]
    rw [if_neg hnnil]
    simp only [hb0, hrun]

/-- A freshly constructed gauge satisfies the reconciliation invariant
with an empty previous model. -/
theorem initState_inv (cfg : GaugeCfg) : ItemsInv cfg [] [] initState := by
  refine ⟨fun x => rfl, fun c i => ?_, rfl, List.nodup_nil⟩
  simp [initState, alistGet]

/-- Master lemma: one `update` call from a state that is exactly
reconciled with `mOld` succeeds on a valid duplicate-free `mNew` and
leaves the backend exactly reconciled with `mNew`.  The private
`id2labelvalues_map` keeps its stale entries for vanished keys. -/
theorem update_exact (cfg : GaugeCfg) (mOld mNew : Model) (s : GaugeState)
    (Hid : cfg.idlabel ∈ cfg.labels)
    (HvO : ValidModel cfg mOld) (HndO : (mOld.map Prod.fst).Nodup)
    (HvN : ValidModel cfg mNew) (HndN : (mNew.map Prod.fst).Nodup)
    (inv : ItemsInv cfg mOld [] s) :
    ∃ s2 evs, update cfg s mNew = .ok (s2, evs)
      ∧ (∀ c i, alistGet s2.backend c = some i ↔
          (∃ d, alistGet mNew i = some d ∧ c = labelvalues cfg d))
      ∧ (∀ k dx, alistGet mNew k = some dx →
          alistGet s2.id2labelvalues_map k = some (labelvalues cfg dx))
      ∧ (∀ k, alistGet mNew k = none →
          alistGet s2.id2labelvalues_map k = alistGet s.id2labelvalues_map k)
      ∧ s2.old_model_keys = mNew.map Prod.fst
      ∧ (s2.backend.map Prod.fst).Nodup := by
  have hgO := validGets_of_validModel cfg mOld HvO
  have hgN := validGets_of_validModel cfg mNew HvN
  obtain ⟨sA, eA, hrunA, invA⟩ := updateItems_inv cfg mOld Hid hgO mNew [] s
    (by simpa using HvN) (by simpa using HndN) inv
  rw [List.nil_append] at invA
  obtain ⟨hmapA, hbkA, holdA, hnbA⟩ := invA
  have hndrem : ((mOld.map Prod.fst).filter
      (fun x => (alistGet mNew x).isNone)).Nodup := HndO.filter _
  have hmemrem : ∀ x ∈ (mOld.map Prod.fst).filter
      (fun x => (alistGet mNew x).isNone),
      alistGet mNew x = none ∧ ∃ dx, alistGet mOld x = some dx
        ∧ alistGet sA.id2labelvalues_map x = some (labelvalues cfg dx) := by
    intro x hx
    rw [List.mem_filter] at hx
    have hnone : alistGet mNew x = none := by
      rcases h0 : alistGet mNew x with _ | dz
      · rfl
      · rw [h0] at hx
        cases hx.2
    obtain ⟨dx, hdx⟩ := alistGet_of_mem_keys mOld x hx.1
    refine ⟨hnone, dx, hdx, ?_⟩
    rw [hmapA x, hnone, hdx]
    rfl
  have hbkrem : ∀ c i, alistGet sA.backend c = some i ↔
      ((∃ d, alistGet mNew i = some d ∧ c = labelvalues cfg d)
       ∨ (alistGet mNew i = none
          ∧ i ∈ (mOld.map Prod.fst).filter (fun x => (alistGet mNew x).isNone)
          ∧ ∃ d, alistGet mOld i = some d ∧ c = labelvalues cfg d)) := by
    intro c i
    rw [hbkA c i]
    constructor
    · rintro (h1 | ⟨hn, d, hd, hc⟩)
      · exact Or.inl h1
      · refine Or.inr ⟨hn, ?_, d, hd, hc⟩
        rw [List.mem_filter]
        refine ⟨mem_keys_of_alistGet mOld i d hd, ?_⟩
        rw [hn]
        rfl
    · rintro (h1 | ⟨hn, hr, d, hd, hc⟩)
      · exact Or.inl h1
      · exact Or.inr ⟨hn, d, hd, hc⟩
  obtain ⟨sB, eB, hrunB, hmB, hoB, hbB, hnB⟩ :=
    removeOld_inv cfg mOld mNew Hid hgO hgN
      ((mOld.map Prod.fst).filter (fun x => (alistGet mNew x).isNone)) sA
      hndrem hmemrem hbkrem hnbA
  refine ⟨{ sB with old_model_keys := mNew.map Prod.fst }, eA ++ eB, ?_, ?_, ?_, ?_, rfl, hnB⟩
  · simp only [update, hrunA]
    rw [holdA]
    simp only [hrunB]
  · exact hbB
  · intro k dx hk
    show alistGet sB.id2labelvalues_map k = _
    rw [hmB, hmapA k, hk]
    rfl
  · intro k hk
    show alistGet sB.id2labelvalues_map k = _
    rw [hmB, hmapA k, hk]
    obtain ⟨hmap0, _, _, _⟩ := inv
    rw [hmap0 k]
    rfl

/-- When every item's combination is already stored, the item loop is a
no-op apart from the `old_model_keys.discard` calls: no backend write. -/
theorem updateItems_noop (cfg : GaugeCfg) :
    ∀ (l : List (Value × Record)) (s : GaugeState),
    (∀ p ∈ l, alistGet p.2 cfg.idlabel = some p.1) →
    (∀ p ∈ l, alistGet s.id2labelvalues_map p.1 = some (labelvalues cfg p.2)) →
    ∃ s', updateItems cfg s l = .ok (s', [])
      ∧ s'.id2labelvalues_map = s.id2labelvalues_map
      ∧ s'.backend = s.backend
      ∧ (∀ x ∈ s'.old_model_keys, x ∈ s.old_model_keys ∧ x ∉ l.map Prod.fst) := by
  intro l
  induction l with
  | nil =>
    intro s _ _
    exact ⟨s, by simp [updateItems], rfl, rfl, fun x hx => ⟨hx, by simp⟩⟩
  | cons q rest ih =>
    obtain ⟨k, d⟩ := q
    intro s hv hm
    have hvk : alistGet d cfg.idlabel = some k := hv (k, d) (by simp)
    have hmk : alistGet s.id2labelvalues_map k = some (labelvalues cfg d) :=
      hm (k, d) (by simp)
    have hone := updateOne_skip cfg
      { s with old_model_keys := s.old_model_keys.filter (fun x => x ≠ k) } d k hvk hmk
    obtain ⟨s', hrun, hm', hb', ho'⟩ := ih
      { s with old_model_keys := s.old_model_keys.filter (fun x => x ≠ k) }
      (fun p hp => hv p (List.mem_cons_of_mem _ hp))
      (fun p hp => hm p (List.mem_cons_of_mem _ hp))
    refine ⟨s', ?_, hm', hb', ?_⟩
    · simp only [updateItems]
      rw [if_pos hvk]
      simp only [hone, hrun]
      rfl
    · intro x hx
      obtain ⟨hx1, hx2⟩ := ho' x hx
      have hx1' : x ∈ s.old_model_keys.filter (fun x => x ≠ k) := hx1
      rw [List.mem_filter] at hx1'
      refine ⟨hx1'.1, ?_⟩
      simp only [List.map_cons, List.mem_cons]
      rintro (rfl | hxk)
      · have hxx := hx1'.2
        simp at hxx
      · exact hx2 hxk

/-- The removal loop fails only with the `assert old_labelvalues`
failure. -/
theorem removeOld_err_oldAssert :
    ∀ (ks : List Value) (s : GaugeState) (e : GErr),
    removeOld s ks = .error e → e = .oldAssert := by
  intro ks
  induction ks with
  | nil =>
    intro s e h
    simp [removeOld] at h
  | cons k rest ih =>
    intro s e h
    simp only [removeOld] at h
    rcases ho : alistGet s.id2labelvalues_map k with _ | old
    · simp only [ho] at h
      injection h with h
      exact h.symm
    · simp only [ho] at h
      by_cases hnil : old = []
      · rw [if_pos hnil] at h
        injection h with h
        exact h.symm
      · rw [if_neg hnil] at h
        rcases hb : alistGet s.backend old with _ | i0
        · simp only [hb] at h
          exact ih s e h
        · simp only [hb] at h
          rcases h2 : removeOld { s with backend := alistRemove s.backend old } rest
            with e2 | ⟨s2, evs2⟩
          · simp only [h2] at h
            injection h with h
            rw [← h]
            exact ih _ e2 h2
          · simp only [h2] at h
            exact Except.noConfusion h

/-- With a consistent id attribute, `_update` fails only with the
uncaught KeyError of `gauge.remove`. -/
theorem updateOne_err (cfg : GaugeCfg) (s : GaugeState) (d : Record)
    (k : Value) (e : GErr)
    (hv : alistGet d cfg.idlabel = some k)
    (h : updateOne cfg s d = .error e) : e = .removeKeyError := by
  simp only [updateOne, hv] at h
  rcases ho : alistGet s.id2labelvalues_map k with _ | old
  · simp only [ho] at h
    exact Except.noConfusion h
  · simp only [ho] at h
    by_cases he : old = labelvalues cfg d
    · rw [if_pos he] at h
      exact Except.noConfusion h
    · rw [if_neg he] at h
      by_cases hnil : old = []
      · rw [if_pos hnil] at h
        exact Except.noConfusion h
      · rw [if_neg hnil] at h
        rcases hb : alistGet (alistSet s.backend (labelvalues cfg d) k) old with _ | i0
        · simp only [hb] at h
          injection h with h
          exact h.symm
        · simp only [hb] at h
          exact Except.noConfusion h

/-- When every record carries its own key under the id attribute, the
item loop never fails with the id assertion. -/
theorem updateItems_no_idm (cfg : GaugeCfg) :
    ∀ (l : List (Value × Record)) (s : GaugeState),
    (∀ p ∈ l, alistGet p.2 cfg.idlabel = some p.1) →
    updateItems cfg s l ≠ .error .idMismatch := by
  intro l
  induction l with
  | nil =>
    intro s _ h
    simp [updateItems] at h
  | cons q rest ih =>
    obtain ⟨k, d⟩ := q
    intro s hv h
    have hc := hv (k, d) (by simp)
    simp only [updateItems] at h
    rw [if_pos hc] at h
    rcases h1 : updateOne cfg
        { s with old_model_keys := s.old_model_keys.filter (fun x => x ≠ k) } d
      with e | ⟨s2, evs1⟩
    · simp only [h1] at h
      injection h with h
      have herr := updateOne_err cfg _ d k e hc h1
      rw [herr] at h
      cases h
    · simp only [h1] at h
      rcases h2 : updateItems cfg s2 rest with e | ⟨s3, evs2⟩
      · simp only [h2] at h
        injection h with h
        exact ih s2 (fun p hp => hv p (List.mem_cons_of_mem _ hp)) (h ▸ h2)
      · simp only [h2] at h
        exact Except.noConfusion h

/-- An item whose record violates the id contract makes the item loop
abort. -/
theorem updateItems_offender (cfg : GaugeCfg) :
    ∀ (l : List (Value × Record)) (s : GaugeState),
    (∃ p ∈ l, alistGet p.2 cfg.idlabel ≠ some p.1) →
    ∃ e, updateItems cfg s l = .error e := by
  intro l
  induction l with
  | nil =>
    rintro s ⟨p, hp, _⟩
    cases hp
  | cons q rest ih =>
    obtain ⟨k, d⟩ := q
    rintro s ⟨p, hp, hbad⟩
    by_cases hc : alistGet d cfg.idlabel = some k
    · rcases List.mem_cons.1 hp with rfl | hp'
      · exact absurd hc hbad
      · rcases h1 : updateOne cfg
            { s with old_model_keys := s.old_model_keys.filter (fun x => x ≠ k) } d
          with e | ⟨s2, evs1⟩
        · refine ⟨e, ?_⟩
          simp only [updateItems]
          rw [if_pos hc]
          simp only [h1]
        · obtain ⟨e, he⟩ := ih s2 ⟨p, hp', hbad⟩
          refine ⟨e, ?_⟩
          simp only [updateItems]
          rw [if_pos hc]
          simp only [h1, he]
    · refine ⟨.idMismatch, ?_⟩
      simp only [updateItems]
      rw [if_neg hc]

/-! ### Claim theorems for the gauge synchronizer -/

/-- The three-synchronization run exhibiting the reappearing-key defect:
label schema `{a, id}`, key `"1"` with attribute `a = "x"`. -/
def c1cfg : GaugeCfg := ⟨["a", "id"], "id"⟩

/-- The model containing the single record of the defect run. -/
def c1model : Model :=
  [(Value.vstr "1", [("id", Value.vstr "1"), ("a", Value.vstr "x")])]

/-- Claim C1 (code bug witness run): after synchronizing with `c1model`,
then with the empty model, then with `c1model` again, `ModelGauge.update`
leaves the backend empty — the reappearing key's combination is never
re-registered, because the stale `id2labelvalues_map` entry equals the new
combination and `_update` skips registration.  The exported set (empty)
therefore differs from the model's combination set (one element), so the
reconciliation bijection of the claim fails. -/
theorem C1_reappear_bug :
    update c1cfg initState c1model
      = .ok (⟨[(Value.vstr "1", [Value.vstr "x", Value.vstr "1"])],
              [([Value.vstr "x", Value.vstr "1"], Value.vstr "1")],
              [Value.vstr "1"]⟩,
             [GEvent.register [Value.vstr "x", Value.vstr "1"]])
    ∧ update c1cfg
        ⟨[(Value.vstr "1", [Value.vstr "x", Value.vstr "1"])],
         [([Value.vstr "x", Value.vstr "1"], Value.vstr "1")],
         [Value.vstr "1"]⟩ []
      = .ok (⟨[(Value.vstr "1", [Value.vstr "x", Value.vstr "1"])], [], []⟩,
             [GEvent.remove [Value.vstr "x", Value.vstr "1"]])
    ∧ update c1cfg
        ⟨[(Value.vstr "1", [Value.vstr "x", Value.vstr "1"])], [], []⟩ c1model
      = .ok (⟨[(Value.vstr "1", [Value.vstr "x", Value.vstr "1"])], [],
              [Value.vstr "1"]⟩, [])
    ∧ alistGet ([] : List (List Value × Value))
        (labelvalues c1cfg [("id", Value.vstr "1"), ("a", Value.vstr "x")]) = none
    ∧ alistGet c1model (Value.vstr "1")
      = some [("id", Value.vstr "1"), ("a", Value.vstr "x")] := by
  decide

/-- Claim C4: reading a gauge at the label combination registered for a
key applies the selector to the record stored for that key in the model
*current at read time*: for any model `current` holding record `r` at key
`k`, the read returns `selector r` — never a value captured when
`update` ran. -/
theorem C4_lazy_read (cfg : GaugeCfg) (mdl : Model)
    (Hid : cfg.idlabel ∈ cfg.labels)
    (Hv : ValidModel cfg mdl) (Hnd : (mdl.map Prod.fst).Nodup)
    (k : Value) (d : Record) (hk : alistGet mdl k = some d)
    (s1 : GaugeState) (evs : List GEvent)
    (h : update cfg initState mdl = .ok (s1, evs))
    {α : Type} (selector : Record → α) (current : Model) (r : Record)
    (hc : alistGet current k = some r) :
    readGauge selector s1 (labelvalues cfg d) current = .ok (selector r) := by
  obtain ⟨t, evs2, hrun, hbk, _, _, _, _⟩ := update_exact cfg [] mdl initState Hid
    (by intro p hp; cases hp) List.nodup_nil Hv Hnd (initState_inv cfg)
  rw [h] at hrun
  injection hrun with hpair
  have hts : s1 = t := congrArg Prod.fst hpair
  subst hts
  have hb1 : alistGet s1.backend (labelvalues cfg d) = some k :=
    (hbk _ k).2 ⟨d, hk, rfl⟩
  simp [readGauge, hb1, hc]

/-- Witness for C4 at a concrete gauge: after one synchronization with a
model whose record is `{id: "1"}`, reading at its combination against a
*different* current model returns that current model's record. -/
theorem C4_lazy_read_witness :
    readGauge (fun r => r)
      ⟨[(Value.vstr "1", [Value.vstr "1"])],
       [([Value.vstr "1"], Value.vstr "1")], [Value.vstr "1"]⟩
      (labelvalues ⟨["id"], "id"⟩ [("id", Value.vstr "1")])
      [(Value.vstr "1", [("z", Value.vnone)])]
      = .ok [("z", Value.vnone)] :=
  C4_lazy_read ⟨["id"], "id"⟩ [(Value.vstr "1", [("id", Value.vstr "1")])]
    (by decide) (by decide) (by decide)
    (Value.vstr "1") [("id", Value.vstr "1")] (by decide)
    ⟨[(Value.vstr "1", [Value.vstr "1"])],
     [([Value.vstr "1"], Value.vstr "1")], [Value.vstr "1"]⟩
    [GEvent.register [Value.vstr "1"]] (by decide)
    (fun r => r) [(Value.vstr "1", [("z", Value.vnone)])]
    [("z", Value.vnone)] (by decide)

/-- Claim C7: a key present in two successive synchronizations (from a
fresh gauge) whose label combination changes has its new combination
registered and its old combination removed by the second `update`; after
it, exactly one combination is exported for that key. -/
theorem C7_label_change (cfg : GaugeCfg) (m1 m2 : Model)
    (Hid : cfg.idlabel ∈ cfg.labels)
    (Hv1 : ValidModel cfg m1) (Hnd1 : (m1.map Prod.fst).Nodup)
    (Hv2 : ValidModel cfg m2) (Hnd2 : (m2.map Prod.fst).Nodup)
    (k : Value) (d1 d2 : Record)
    (h1 : alistGet m1 k = some d1) (h2 : alistGet m2 k = some d2)
    (hne : labelvalues cfg d1 ≠ labelvalues cfg d2)
    (s1 : GaugeState) (e1 : List GEvent)
    (hu1 : update cfg initState m1 = .ok (s1, e1))
    (s2 : GaugeState) (e2 : List GEvent)
    (hu2 : update cfg s1 m2 = .ok (s2, e2)) :
    alistGet s1.backend (labelvalues cfg d1) = some k
    ∧ alistGet s1.backend (labelvalues cfg d2) = none
    ∧ alistGet s2.backend (labelvalues cfg d2) = some k
    ∧ alistGet s2.backend (labelvalues cfg d1) = none
    ∧ (∀ c, alistGet s2.backend c = some k → c = labelvalues cfg d2) := by
  have hg1 := validGets_of_validModel cfg m1 Hv1
  have hg2 := validGets_of_validModel cfg m2 Hv2
  obtain ⟨t1, f1, hrun1, hbk1, hmapS1, hmapN1, hold1, hnb1⟩ :=
    update_exact cfg [] m1 initState Hid
      (by intro p hp; cases hp) List.nodup_nil Hv1 Hnd1 (initState_inv cfg)
  rw [hu1] at hrun1
  injection hrun1 with hpair1
  have hts1 : s1 = t1 := congrArg Prod.fst hpair1
  subst hts1
  have inv1 : ItemsInv cfg m1 [] s1 := by
    refine ⟨?_, ?_, ?_, ?_⟩
    · intro x
      show alistGet s1.id2labelvalues_map x = (alistGet m1 x).map (labelvalues cfg)
      rcases hx : alistGet m1 x with _ | dx
      · rw [hmapN1 x hx]
        rfl
      · exact hmapS1 x dx hx
    · intro c i
      rw [hbk1 c i]
      constructor
      · rintro ⟨d, hd, hc⟩
        exact Or.inr ⟨rfl, d, hd, hc⟩
      · rintro (⟨d, hd, _⟩ | ⟨_, d, hd, hc⟩)
        · simp [alistGet] at hd
        · exact ⟨d, hd, hc⟩
    · rw [hold1]
      exact (List.filter_eq_self.2 (fun a _ => rfl)).symm
    · exact hnb1
  obtain ⟨t2, f2, hrun2, hbk2, _, _, _, _⟩ :=
    update_exact cfg m1 m2 s1 Hid Hv1 Hnd1 Hv2 Hnd2 inv1
  rw [hu2] at hrun2
  injection hrun2 with hpair2
  have hts2 : s2 = t2 := congrArg Prod.fst hpair2
  subst hts2
  refine ⟨(hbk1 _ k).2 ⟨d1, h1, rfl⟩, ?_, (hbk2 _ k).2 ⟨d2, h2, rfl⟩, ?_, ?_⟩
  · rcases hob : alistGet s1.backend (labelvalues cfg d2) with _ | i
    · rfl
    · exfalso
      obtain ⟨d, hd, hcc⟩ := (hbk1 _ i).1 hob
      have hki := labelvalues_id_eq cfg Hid d2 d k i (hg2 k d2 h2) (hg1 i d hd) hcc
      rw [← hki, h1] at hd
      injection hd with hdd
      rw [← hdd] at hcc
      exact hne hcc.symm
  · rcases hob : alistGet s2.backend (labelvalues cfg d1) with _ | i
    · rfl
    · exfalso
      obtain ⟨d, hd, hcc⟩ := (hbk2 _ i).1 hob
      have hki := labelvalues_id_eq cfg Hid d1 d k i (hg1 k d1 h1) (hg2 i d hd) hcc
      rw [← hki, h2] at hd
      injection hd with hdd
      rw [← hdd] at hcc
      exact hne hcc
  · intro c hcK
    obtain ⟨d, hd, hcc⟩ := (hbk2 c k).1 hcK
    rw [h2] at hd
    injection hd with hdd
    rw [← hdd] at hcc
    exact hcc

/-- Witness for C7 at the spec's example: key `"1"` changes attribute `a`
from `"x"` to `"z"` between two synchronizations from a fresh gauge. -/
theorem C7_label_change_witness :
    alistGet ([([Value.vstr "x", Value.vstr "1"], Value.vstr "1")] :
        List (List Value × Value))
      (labelvalues c1cfg [("id", Value.vstr "1"), ("a", Value.vstr "x")])
      = some (Value.vstr "1")
    ∧ alistGet ([([Value.vstr "x", Value.vstr "1"], Value.vstr "1")] :
        List (List Value × Value))
      (labelvalues c1cfg [("id", Value.vstr "1"), ("a", Value.vstr "z")]) = none
    ∧ alistGet ([([Value.vstr "z", Value.vstr "1"], Value.vstr "1")] :
        List (List Value × Value))
      (labelvalues c1cfg [("id", Value.vstr "1"), ("a", Value.vstr "z")])
      = some (Value.vstr "1")
    ∧ alistGet ([([Value.vstr "z", Value.vstr "1"], Value.vstr "1")] :
        List (List Value × Value))
      (labelvalues c1cfg [("id", Value.vstr "1"), ("a", Value.vstr "x")]) = none
    ∧ (∀ c, alistGet ([([Value.vstr "z", Value.vstr "1"], Value.vstr "1")] :
        List (List Value × Value)) c = some (Value.vstr "1") →
        c = labelvalues c1cfg [("id", Value.vstr "1"), ("a", Value.vstr "z")]) := by
  have h := C7_label_change c1cfg
    [(Value.vstr "1", [("id", Value.vstr "1"), ("a", Value.vstr "x")])]
    [(Value.vstr "1", [("id", Value.vstr "1"), ("a", Value.vstr "z")])]
    (by decide) (by decide) (by decide) (by decide) (by decide)
    (Value.vstr "1")
    [("id", Value.vstr "1"), ("a", Value.vstr "x")]
    [("id", Value.vstr "1"), ("a", Value.vstr "z")]
    (by decide) (by decide) (by decide)
    ⟨[(Value.vstr "1", [Value.vstr "x", Value.vstr "1"])],
     [([Value.vstr "x", Value.vstr "1"], Value.vstr "1")], [Value.vstr "1"]⟩
    [GEvent.register [Value.vstr "x", Value.vstr "1"]] (by decide)
    ⟨[(Value.vstr "1", [Value.vstr "z", Value.vstr "1"])],
     [([Value.vstr "z", Value.vstr "1"], Value.vstr "1")], [Value.vstr "1"]⟩
    [GEvent.register [Value.vstr "z", Value.vstr "1"],
     GEvent.remove [Value.vstr "x", Value.vstr "1"]] (by decide)
  exact h

/-- Claim C6: calling `update` twice in a row while the model accessor
returns the same mapping performs no backend write or removal on the
second call: its event list is empty (nothing re-registered, nothing
re-removed), from any starting state whose first call succeeded. -/
theorem C6_idempotent (cfg : GaugeCfg) (s : GaugeState) (model : Model)
    (hnd : (model.map Prod.fst).Nodup)
    (s1 : GaugeState) (evs : List GEvent)
    (h : update cfg s model = .ok (s1, evs)) :
    ∃ s2, update cfg s1 model = .ok (s2, []) := by
  obtain ⟨sA, eA, sB, eB, hA, hB, hs1, hevs⟩ := update_parts cfg s model s1 evs h
  have hval := updateItems_valid cfg model s sA eA hA
  have hmapA := updateItems_map cfg model s sA eA hnd hA
  obtain ⟨hmB, hoB⟩ := removeOld_map_const sA.old_model_keys sA sB eB hB
  have hmap1 : ∀ p ∈ model,
      alistGet s1.id2labelvalues_map p.1 = some (labelvalues cfg p.2) := by
    intro p hp
    rw [hs1]
    show alistGet sB.id2labelvalues_map p.1 = _
    rw [hmB]
    exact hmapA p hp
  obtain ⟨t, htrun, htm, htb, hto⟩ := updateItems_noop cfg model s1 hval hmap1
  have hempty : t.old_model_keys = [] := by
    rw [List.eq_nil_iff_forall_not_mem]
    intro x hx
    obtain ⟨hx1, hx2⟩ := hto x hx
    rw [hs1] at hx1
    exact hx2 hx1
  refine ⟨{ t with old_model_keys := model.map Prod.fst }, ?_⟩
  simp only [update, htrun]
  rw [hempty]
  simp only [removeOld]
  rfl

/-- Witness for C6: the second synchronization with the unchanged
one-record model emits no backend event. -/
theorem C6_idempotent_witness :
    ∃ s2, update ⟨["id"], "id"⟩
      ⟨[(Value.vstr "1", [Value.vstr "1"])],
       [([Value.vstr "1"], Value.vstr "1")], [Value.vstr "1"]⟩
      [(Value.vstr "1", [("id", Value.vstr "1")])] = .ok (s2, []) :=
  C6_idempotent ⟨["id"], "id"⟩ initState
    [(Value.vstr "1", [("id", Value.vstr "1")])] (by decide)
    ⟨[(Value.vstr "1", [Value.vstr "1"])],
     [([Value.vstr "1"], Value.vstr "1")], [Value.vstr "1"]⟩
    [GEvent.register [Value.vstr "1"]] (by decide)

/-- Claim C8: if some key's record maps the id attribute to a different
value (or lacks it), `update` aborts with an error; when every record's
id-attribute value equals its storage key, the id-assertion abort branch
is never taken. -/
theorem C8_id_assert (cfg : GaugeCfg) (s : GaugeState) (model : Model) :
    ((∃ p ∈ model, alistGet p.2 cfg.idlabel ≠ some p.1) →
      ∃ e, update cfg s model = .error e)
    ∧ ((∀ p ∈ model, alistGet p.2 cfg.idlabel = some p.1) →
      update cfg s model ≠ .error GErr.idMismatch) := by
  constructor
  · intro hoff
    obtain ⟨e, he⟩ := updateItems_offender cfg model s hoff
    exact ⟨e, by simp only [update, he]⟩
  · intro hv hcontra
    rcases hA : updateItems cfg s model with e | ⟨sA, eA⟩
    · simp only [update, hA] at hcontra
      injection hcontra with hcontra
      exact updateItems_no_idm cfg model s hv (by rw [hA, hcontra])
    · simp only [update, hA] at hcontra
      rcases hB : removeOld sA sA.old_model_keys with e | ⟨sB, eB⟩
      · simp only [hB] at hcontra
        injection hcontra with hcontra
        have hoa := removeOld_err_oldAssert sA.old_model_keys sA e hB
        rw [hoa] at hcontra
        cases hcontra
      · simp only [hB] at hcontra
        exact Except.noConfusion hcontra

/-- Witness for C8: a record stored under key `"1"` whose id attribute is
`"2"` makes `update` abort. -/
theorem C8_id_assert_witness :
    ∃ e, update ⟨["id"], "id"⟩ initState
      [(Value.vstr "1", [("id", Value.vstr "2")])] = .error e :=
  (C8_id_assert ⟨["id"], "id"⟩ initState
    [(Value.vstr "1", [("id", Value.vstr "2")])]).1
    ⟨(Value.vstr "1", [("id", Value.vstr "2")]), by decide, by decide⟩

/-- Claim C10: a record missing one of the schema's non-id attributes
does not make `update` fail; the missing attribute contributes the empty
string at that label's position in the record's combination. -/
theorem C10_missing_attr (cfg : GaugeCfg) (mdl : Model)
    (Hid : cfg.idlabel ∈ cfg.labels)
    (Hv : ValidModel cfg mdl) (Hnd : (mdl.map Prod.fst).Nodup)
    (k : Value) (d : Record) (hk : (k, d) ∈ mdl)
    (attr : String) (i : Nat)
    (hattr : cfg.labels[i]? = some attr)
    (hmiss : alistGet d attr = none) :
    (∃ s' evs, update cfg initState mdl = .ok (s', evs))
    ∧ (labelvalues cfg d)[i]? = some (Value.vstr "") := by
  constructor
  · obtain ⟨s2, evs, hrun, _, _, _, _, _⟩ := update_exact cfg [] mdl initState Hid
      (by intro p hp; cases hp) List.nodup_nil Hv Hnd (initState_inv cfg)
    exact ⟨s2, evs, hrun⟩
  · simp only [labelvalues, List.getElem?_map, hattr]
    simp [hmiss]

/-- Witness for C10: schema `{a, id}`, record `{id: "1"}` missing `a`;
synchronization succeeds and the combination's first label is the empty
string. -/
theorem C10_missing_attr_witness :
    (∃ s' evs, update c1cfg initState
      [(Value.vstr "1", [("id", Value.vstr "1")])] = .ok (s', evs))
    ∧ (labelvalues c1cfg [("id", Value.vstr "1")])[0]? = some (Value.vstr "") :=
  C10_missing_attr c1cfg [(Value.vstr "1", [("id", Value.vstr "1")])]
    (by decide) (by decide) (by decide)
    (Value.vstr "1") [("id", Value.vstr "1")] (by decide)
    "a" 0 (by decide) (by decide)

/-! ### Claim theorems for the selector wrapper -/

/-- Claim C5: the selector wrapper normalizes the raw selector output:
`None → 0`, `False → 0`, `True → 1`, an ISO-8601 timestamp string to its
Unix epoch seconds (the documented example evaluating to 1696316400),
and any other numeric value passes through unchanged. -/
theorem C5_selector_normalization (vs : Record → Value) (d : Record) :
    (vs d = Value.vnone → wrapSelector vs d = some 0)
    ∧ (vs d = Value.vbool false → wrapSelector vs d = some 0)
    ∧ (vs d = Value.vbool true → wrapSelector vs d = some 1)
    ∧ (∀ s, vs d = Value.vstr s → wrapSelector vs d = fromisoformatTimestamp s)
    ∧ (vs d = Value.vstr "2023-10-03T00:00:00-0700" →
        wrapSelector vs d = some 1696316400)
    ∧ (∀ q : Rat, vs d = Value.vnum q → wrapSelector vs d = some q) := by
  refine ⟨?_, ?_, ?_, ?_, ?_, ?_⟩
  · intro h
    simp [wrapSelector, h]
  · intro h
    simp [wrapSelector, h]
  · intro h
    simp [wrapSelector, h]
  · intro s h
    simp [wrapSelector, h]
  · intro h
    have hp : fromisoformatParts "2023-10-03T00:00:00-0700"
        = some (1696316400, 0, 1) := by decide
    simp [wrapSelector, h, fromisoformatTimestamp, hp]
  · intro q h
    simp [wrapSelector, h]

/-- Witness for C5: the wrapper maps the documented timestamp string to
its Unix epoch seconds. -/
theorem C5_selector_normalization_witness :
    wrapSelector (fun _ => Value.vstr "2023-10-03T00:00:00-0700") []
      = some 1696316400 :=
  (C5_selector_normalization
    (fun _ => Value.vstr "2023-10-03T00:00:00-0700") []).2.2.2.2.1 rfl

/-! ### Characterization of `_maybe_refresh` -/

theorem emailStep_state_last_update (cfg : WrapCfg) (s : WrapperState)
    (env : RefreshEnv) (f : Bool) :
    (emailStep cfg s env f).state.last_update = s.last_update := by
  simp only [emailStep]
  split
  · split <;> rfl
  · rfl

theorem emailStep_state_errors (cfg : WrapCfg) (s : WrapperState)
    (env : RefreshEnv) (f : Bool) :
    (emailStep cfg s env f).state.errors = s.errors := by
  simp only [emailStep]
  split
  · split <;> rfl
  · rfl

theorem emailStep_fetched (cfg : WrapCfg) (s : WrapperState)
    (env : RefreshEnv) (f : Bool) :
    (emailStep cfg s env f).fetched = f := by
  simp only [emailStep]
  split
  · split <;> rfl
  · rfl

theorem maybe_refresh_no_fetch (cfg : WrapCfg) (s : WrapperState) (env : RefreshEnv)
    (hc : ¬ env.checktime - s.last_update > MIN_UPDATE_INTERVAL) :
    maybe_refresh cfg s env = emailStep cfg s env false := by
  simp only [maybe_refresh, if_neg hc]
  simp

theorem maybe_refresh_sentinel (cfg : WrapCfg) (s : WrapperState) (env : RefreshEnv)
    (hc : env.checktime - s.last_update > MIN_UPDATE_INTERVAL)
    (hs : s.last_update = -1) :
    maybe_refresh cfg s env
      = emailStep cfg { s with last_update := env.newtime } env false := by
  simp only [maybe_refresh, if_pos hc]
  simp [hs]

theorem maybe_refresh_fetch_ok (cfg : WrapCfg) (s : WrapperState) (env : RefreshEnv)
    (hc : env.checktime - s.last_update > MIN_UPDATE_INTERVAL)
    (hs : s.last_update ≠ -1)
    (hok : env.fetchResult = .ok) :
    maybe_refresh cfg s env
      = emailStep cfg { s with last_update := env.midWrite.getD env.newtime }
          env true := by
  simp only [maybe_refresh, if_pos hc]
  rw [if_pos hs, hok]

theorem maybe_refresh_fetch_timeout (cfg : WrapCfg) (s : WrapperState)
    (env : RefreshEnv)
    (hc : env.checktime - s.last_update > MIN_UPDATE_INTERVAL)
    (hs : s.last_update ≠ -1)
    (hto : env.fetchResult = .readTimeout) :
    maybe_refresh cfg s env
      = .raised { s with last_update := env.midWrite.getD env.newtime } true := by
  simp only [maybe_refresh, if_pos hc]
  rw [if_pos hs, hto]

theorem maybe_refresh_fetch_conn (cfg : WrapCfg) (s : WrapperState)
    (env : RefreshEnv)
    (hc : env.checktime - s.last_update > MIN_UPDATE_INTERVAL)
    (hs : s.last_update ≠ -1)
    (hcn : env.fetchResult = .connError) :
    maybe_refresh cfg s env
      = .raised { s with last_update := env.midWrite.getD env.newtime } true := by
  simp only [maybe_refresh, if_pos hc]
  rw [if_pos hs, hcn]

/-! ### Claim theorems for the refresh scheduler and notifier -/

/-- Claim C2: across two `_maybe_refresh` calls whose second interval
check happens less than MIN_UPDATE_INTERVAL seconds after the first
call's `newtime` (and with no concurrent write to `last_update` during
the first call's fetch window), the fetch collaborator is invoked at most
once, whatever the first fetch's outcome: the check-and-advance of
`last_update` happens before the fetch runs, and no path of the source
ever rolls the timestamp back (the rollback statement is dead code behind
the TypeError-raising `LOGGER.exception()`). -/
theorem C2_rate_limit (cfg : WrapCfg) (s : WrapperState) (env1 env2 : RefreshEnv)
    (hmid : env1.midWrite = none)
    (hwin : env2.checktime - env1.newtime < MIN_UPDATE_INTERVAL) :
    ((maybe_refresh cfg s env1).fetched.toNat
      + (maybe_refresh cfg (maybe_refresh cfg s env1).state env2).fetched.toNat)
      ≤ 1 := by
  by_cases hc1 : env1.checktime - s.last_update > MIN_UPDATE_INTERVAL
  · by_cases hs : s.last_update = -1
    · rw [maybe_refresh_sentinel cfg s env1 hc1 hs]
      rw [emailStep_fetched]
      rcases (maybe_refresh cfg (emailStep cfg
        { s with last_update := env1.newtime } env1 false).state env2).fetched
        <;> simp
    · have hlu2 : ¬ env2.checktime - env1.newtime > MIN_UPDATE_INTERVAL := by
        omega
      rcases hres : env1.fetchResult with _ | _ | _
      · rw [maybe_refresh_fetch_ok cfg s env1 hc1 hs hres]
        have hlu : (emailStep cfg
            { s with last_update := env1.midWrite.getD env1.newtime }
            env1 true).state.last_update = env1.newtime := by
          rw [emailStep_state_last_update, hmid]
          rfl
        have hc2 : ¬ env2.checktime
            - (emailStep cfg
                { s with last_update := env1.midWrite.getD env1.newtime }
                env1 true).state.last_update > MIN_UPDATE_INTERVAL := by
          rw [hlu]
          exact hlu2
        rw [maybe_refresh_no_fetch cfg _ env2 hc2]
        rw [emailStep_fetched, emailStep_fetched]
        simp
      · rw [maybe_refresh_fetch_timeout cfg s env1 hc1 hs hres, hmid]
        have hc2 : ¬ env2.checktime
            - (RefreshResult.raised { s with last_update := (none : Option Int).getD env1.newtime }
                true).state.last_update > MIN_UPDATE_INTERVAL := hlu2
        rw [maybe_refresh_no_fetch cfg _ env2 hc2]
        rw [emailStep_fetched]
        simp [RefreshResult.fetched]
      · rw [maybe_refresh_fetch_conn cfg s env1 hc1 hs hres, hmid]
        have hc2 : ¬ env2.checktime
            - (RefreshResult.raised { s with last_update := (none : Option Int).getD env1.newtime }
                true).state.last_update > MIN_UPDATE_INTERVAL := hlu2
        rw [maybe_refresh_no_fetch cfg _ env2 hc2]
        rw [emailStep_fetched]
        simp [RefreshResult.fetched]
  · rw [maybe_refresh_no_fetch cfg s env1 hc1]
    rw [emailStep_fetched]
    rcases (maybe_refresh cfg (emailStep cfg s env1 false).state env2).fetched
      <;> simp

/-- Witness for C2: a first fetch that raises ReadTimeout at time 100000
(the escaping TypeError leaves `last_update` advanced) followed by a call
10 seconds later performs one fetch in total. -/
theorem C2_rate_limit_witness :
    ((maybe_refresh ⟨-1, 14⟩ ⟨0, 0, 0⟩
        ⟨100000, 100000, .readTimeout, none, 100000, 0, 0, true⟩).fetched.toNat
      + (maybe_refresh ⟨-1, 14⟩
          (maybe_refresh ⟨-1, 14⟩ ⟨0, 0, 0⟩
            ⟨100000, 100000, .readTimeout, none, 100000, 0, 0, true⟩).state
          ⟨100010, 100010, .ok, none, 100010, 0, 0, true⟩).fetched.toNat)
      ≤ 1 :=
  C2_rate_limit ⟨-1, 14⟩ ⟨0, 0, 0⟩
    ⟨100000, 100000, .readTimeout, none, 100000, 0, 0, true⟩
    ⟨100010, 100010, .ok, none, 100010, 0, 0, true⟩
    rfl (by decide)

/-- Claim C3 (code bug witness run): when the fetch raises ReadTimeout,
the handler dies at its first statement — the zero-argument
`LOGGER.exception()` raises TypeError — so the error counter stays 0 and
`last_update` stays at the advanced 100000 instead of rolling back to the
pre-attempt 0; the exception escapes `_maybe_refresh` and a call 10
seconds later does not retry the fetch.  A connection-class error is not
caught at all and diverges identically.  The claim's increment, rollback
and prompt retry are the intent documented by the in-code comment
('reset the last update time so we try again pronto') but are dead
code. -/
theorem C3_timeout_no_rollback :
    maybe_refresh ⟨-1, 14⟩ ⟨0, 0, 0⟩
      ⟨100000, 100000, .readTimeout, none, 100000, 0, 0, true⟩
      = .raised ⟨100000, 0, 0⟩ true
    ∧ (maybe_refresh ⟨-1, 14⟩ ⟨0, 0, 0⟩
        ⟨100000, 100000, .readTimeout, none, 100000, 0, 0, true⟩).state.errors = 0
    ∧ (maybe_refresh ⟨-1, 14⟩ ⟨0, 0, 0⟩
        ⟨100000, 100000, .readTimeout, none, 100000, 0, 0, true⟩).state.last_update
      = 100000
    ∧ (maybe_refresh ⟨-1, 14⟩
        (maybe_refresh ⟨-1, 14⟩ ⟨0, 0, 0⟩
          ⟨100000, 100000, .readTimeout, none, 100000, 0, 0, true⟩).state
        ⟨100010, 100010, .readTimeout, none, 100010, 0, 0, true⟩).fetched = false
    ∧ maybe_refresh ⟨-1, 14⟩ ⟨0, 0, 0⟩
        ⟨100000, 100000, .connError, none, 100000, 0, 0, true⟩
      = .raised ⟨100000, 0, 0⟩ true := by
  decide

/-- An email firing happens only under the full gate (weekday match, hour
threshold, 12-hour check against the recorded `last_email`, successful
send), and records `last_email = self.last_update` — the final
`last_update`, not the firing time. -/
theorem emailStep_emailed (cfg : WrapCfg) (t : WrapperState) (env : RefreshEnv)
    (f : Bool) (h : (emailStep cfg t env f).emailed = true) :
    (cfg.emailday = env.weekday ∧ cfg.emailhour ≤ env.hour
      ∧ env.emailtime - t.last_email > 3600 * 12 ∧ env.emailOk = true)
    ∧ (emailStep cfg t env f).state.last_email = t.last_update
    ∧ (emailStep cfg t env f).state.last_update = t.last_update := by
  simp only [emailStep] at h ⊢
  split at h
  · split at h
    · rename_i hcond hok
      refine ⟨⟨hcond.1, hcond.2.1, hcond.2.2, hok⟩, ?_, ?_⟩
      · rw [if_pos hcond, if_pos hok]
        rfl
      · rw [if_pos hcond, if_pos hok]
        rfl
    · cases h
  · cases h

/-- Claim C9 counterexample: the notifier fires twice within one
eligible (weekday = 2, hour ≥ 0) window, the second firing only
11 hours 1 second after the first — less than the claimed 12-hour
cooldown since the last firing.  `exporter.py` records
`last_email = self.last_update`; in a call that performs no fetch
(interval exactly MIN_UPDATE_INTERVAL), that value lags the firing by one
hour, so the next firing is admitted one hour early, within the same
UTC-day window. -/
theorem C9_double_fire_counterexample :
    (maybe_refresh ⟨2, 0⟩ ⟨996400, 0, 0⟩
      ⟨1000000, 1000000, .ok, none, 1000000, 2, 0, true⟩).emailed = true
    ∧ (maybe_refresh ⟨2, 0⟩ ⟨996400, 0, 0⟩
        ⟨1000000, 1000000, .ok, none, 1000000, 2, 0, true⟩).fetched = false
    ∧ (maybe_refresh ⟨2, 0⟩
        (maybe_refresh ⟨2, 0⟩ ⟨996400, 0, 0⟩
          ⟨1000000, 1000000, .ok, none, 1000000, 2, 0, true⟩).state
        ⟨1039601, 1039601, .ok, none, 1039601, 2, 11, true⟩).emailed = true
    ∧ (1039601 : Int) - 1000000 < 3600 * 12 := by
  decide

/-- Claim C9 (amended): the notification fires only when the configured
day-of-week equals the current UTC weekday, the current UTC hour is at
least the threshold, more than 12 hours elapsed since the *recorded*
`last_email`, and the send succeeds; and a successful firing records
`last_email = self.last_update` (the final `last_update` of the call, not
the firing time), so the recorded value can lag the firing by up to
MIN_UPDATE_INTERVAL and repeated polling can fire again less than
12 hours later within the same eligible window. -/
theorem C9_email_gate (cfg : WrapCfg) (s : WrapperState) (env : RefreshEnv)
    (h : (maybe_refresh cfg s env).emailed = true) :
    (cfg.emailday = env.weekday ∧ cfg.emailhour ≤ env.hour
      ∧ env.emailtime - s.last_email > 3600 * 12 ∧ env.emailOk = true)
    ∧ (maybe_refresh cfg s env).state.last_email
      = (maybe_refresh cfg s env).state.last_update := by
  by_cases hc : env.checktime - s.last_update > MIN_UPDATE_INTERVAL
  · by_cases hs : s.last_update = -1
    · rw [maybe_refresh_sentinel cfg s env hc hs] at h ⊢
      obtain ⟨hgate, hrec, hlu⟩ :=
        emailStep_emailed cfg { s with last_update := env.newtime } env false h
      exact ⟨hgate, by rw [hrec, hlu]⟩
    · rcases hres : env.fetchResult with _ | _ | _
      · rw [maybe_refresh_fetch_ok cfg s env hc hs hres] at h ⊢
        obtain ⟨hgate, hrec, hlu⟩ := emailStep_emailed cfg
          { s with last_update := env.midWrite.getD env.newtime } env true h
        exact ⟨hgate, by rw [hrec, hlu]⟩
      · rw [maybe_refresh_fetch_timeout cfg s env hc hs hres] at h
        cases h
      · rw [maybe_refresh_fetch_conn cfg s env hc hs hres] at h
        cases h
  · rw [maybe_refresh_no_fetch cfg s env hc] at h ⊢
    obtain ⟨hgate, hrec, hlu⟩ := emailStep_emailed cfg s env false h
    exact ⟨hgate, by rw [hrec, hlu]⟩

/-- Witness for C9 (amended): a concrete firing call records
`last_email` equal to the final `last_update` (here 996400, one hour
before the firing time 1000000). -/
theorem C9_email_gate_witness :
    (((⟨2, 0⟩ : WrapCfg).emailday = (2 : Int) ∧ ((⟨2, 0⟩ : WrapCfg).emailhour ≤ (0 : Int))
      ∧ (1000000 : Int) - 0 > 3600 * 12 ∧ true = true)
    ∧ (maybe_refresh ⟨2, 0⟩ ⟨996400, 0, 0⟩
        ⟨1000000, 1000000, .ok, none, 1000000, 2, 0, true⟩).state.last_email
      = (maybe_refresh ⟨2, 0⟩ ⟨996400, 0, 0⟩
          ⟨1000000, 1000000, .ok, none, 1000000, 2, 0, true⟩).state.last_update) :=
  C9_email_gate ⟨2, 0⟩ ⟨996400, 0, 0⟩
    ⟨1000000, 1000000, .ok, none, 1000000, 2, 0, true⟩ (by decide)

/-- Claim C7 counterexample: in a longer history the replace fails.  A
fresh gauge synchronizes with `{"1": {id:"1", a:"x"}}`, then `{}` (the
series is removed but the `id2labelvalues_map` entry survives), then the
same model again (claim C1's defect: nothing is re-registered), and then
with `{"1": {id:"1", a:"z"}}` — a key present in two successive
synchronizations whose combination changes.  That fourth `synchronize()`
registers the new combination but then calls `gauge.remove` on the old
combination, which is absent from the backend: the KeyError is not caught
inside `_update`, so the call aborts instead of completing the
replacement required by the claim. -/
theorem C7_label_change_counterexample :
    update c1cfg initState c1model
      = .ok (⟨[(Value.vstr "1", [Value.vstr "x", Value.vstr "1"])],
              [([Value.vstr "x", Value.vstr "1"], Value.vstr "1")],
              [Value.vstr "1"]⟩,
             [GEvent.register [Value.vstr "x", Value.vstr "1"]])
    ∧ update c1cfg
        ⟨[(Value.vstr "1", [Value.vstr "x", Value.vstr "1"])],
         [([Value.vstr "x", Value.vstr "1"], Value.vstr "1")],
         [Value.vstr "1"]⟩ []
      = .ok (⟨[(Value.vstr "1", [Value.vstr "x", Value.vstr "1"])], [], []⟩,
             [GEvent.remove [Value.vstr "x", Value.vstr "1"]])
    ∧ update c1cfg
        ⟨[(Value.vstr "1", [Value.vstr "x", Value.vstr "1"])], [], []⟩ c1model
      = .ok (⟨[(Value.vstr "1", [Value.vstr "x", Value.vstr "1"])], [],
              [Value.vstr "1"]⟩, [])
    ∧ alistGet c1model (Value.vstr "1")
      = some [("id", Value.vstr "1"), ("a", Value.vstr "x")]
    ∧ alistGet [(Value.vstr "1", [("id", Value.vstr "1"), ("a", Value.vstr "z")])]
        (Value.vstr "1")
      = some [("id", Value.vstr "1"), ("a", Value.vstr "z")]
    ∧ labelvalues c1cfg [("id", Value.vstr "1"), ("a", Value.vstr "x")]
      ≠ labelvalues c1cfg [("id", Value.vstr "1"), ("a", Value.vstr "z")]
    ∧ update c1cfg
        ⟨[(Value.vstr "1", [Value.vstr "x", Value.vstr "1"])], [],
         [Value.vstr "1"]⟩
        [(Value.vstr "1", [("id", Value.vstr "1"), ("a", Value.vstr "z")])]
      = .error .removeKeyError := by
  decide

end StatusCollector
